import Mathlib

/-!
Verification development for the passlib password-hashing library.

Hash strings are modelled as `List Char`, byte strings as `List Nat`
(each element < 256 where relevant).  The raw cryptographic primitives
(md5, sha1, the utf-8 / utf-16-le encoders, unicode upper-casing) are
external collaborators of the library and are taken as parameters of the
definitions that call them.
-/

namespace Passlib

/-- Error taxonomy of the library (ValueError / InvalidHashError /
MissingDigestError / out-of-bounds settings collapse onto these kinds). -/
inductive PassErr where
  | malformedHash
  | missingDigest
  | valueError
  | invalidSetting
  deriving DecidableEq, Repr

instance {ε α : Type} [DecidableEq ε] [DecidableEq α] : DecidableEq (Except ε α) :=
  fun x y =>
    match x, y with
    | .ok a, .ok b =>
        match decEq a b with
        | isTrue h => isTrue (by rw [h])
        | isFalse h => isFalse (fun hc => h (by injection hc))
    | .error a, .error b =>
        match decEq a b with
        | isTrue h => isTrue (by rw [h])
        | isFalse h => isFalse (fun hc => h (by injection hc))
    | .ok _, .error _ => isFalse (fun hc => Except.noConfusion hc)
    | .error _, .ok _ => isFalse (fun hc => Except.noConfusion hc)

/-! ## Hex codec (binascii.hexlify / unhexlify) -/

/-- Lower-case hex digit for a nibble, as produced by `binascii.hexlify`. -/
def hexDigitLower (n : Nat) : Char :=
  if n < 10 then Char.ofNat (48 + n) else Char.ofNat (87 + n)

/-- Value of a hex digit, accepting both cases as `binascii.unhexlify` does. -/
def hexVal (c : Char) : Option Nat :=
  if 48 ≤ c.toNat ∧ c.toNat ≤ 57 then some (c.toNat - 48)
  else if 97 ≤ c.toNat ∧ c.toNat ≤ 102 then some (c.toNat - 87)
  else if 65 ≤ c.toNat ∧ c.toNat ≤ 70 then some (c.toNat - 55)
  else none

/-- Python `binascii.hexlify`: two lower-case hex chars per byte. -/
def hexlify (bs : List Nat) : List Char :=
  bs.foldr (fun b acc => hexDigitLower (b / 16) :: hexDigitLower (b % 16) :: acc) []

/-- Python `binascii.unhexlify`: pairs of hex chars to bytes, `none` on a bad
character or odd length (Python raises `TypeError` there). -/
def unhexlify : List Char → Option (List Nat)
  | [] => some []
  | [_] => none
  | c1 :: c2 :: rest => do
      let v1 ← hexVal c1
      let v2 ← hexVal c2
      let tail ← unhexlify rest
      some ((v1 * 16 + v2) :: tail)

/-- ASCII upper-casing of one char, the effect of `str.upper()` on the
ASCII strings it is applied to in the formatting code. -/
def asciiUpper (c : Char) : Char :=
  if 97 ≤ c.toNat ∧ c.toNat ≤ 122 then Char.ofNat (c.toNat - 32) else c

/-! ## Constant-time compare

`passlib.utils.consteq` is not under `src/`; §4.2 of the spec describes it:
for equal-length inputs accumulate a mismatch accumulator across the full
length and return `accumulator == 0`; unequal lengths return false. -/

/-- Modelled from the spec: the Constant-Time Compare `consteq` of
`passlib.utils` (the module itself is absent from the source tree). -/
def consteq (a b : List Nat) : Bool :=
  if a.length = b.length then
    ((List.zipWith Nat.xor a b).foldl Nat.lor 0) == 0
  else
    false

/-! ## MSSQL 2000 / 2005 (src/passlib/handlers/mssql.py) -/

/-- The core digest `_raw_mssql(secret, salt) = sha1(secret.encode("utf-16-le") + salt)`.
`sha1` and the utf-16-le encoder are external primitives, passed in. -/
def _raw_mssql (sha1 : List Nat → List Nat) (enc16 : List Char → List Nat)
    (secret : List Char) (salt : List Nat) : List Nat :=
  sha1 (enc16 secret ++ salt)

/-- The `"0x0100"` prefix (`BIDENT` / `UIDENT`). -/
def mssqlIdentPrefix : List Char := ['0', 'x', '0', '1', '0', '0']

/-- Function `_ident_mssql` on string input: length and prefix check only. -/
def _ident_mssql (hash : List Char) (csize : Nat) : Bool :=
  hash.length == csize && mssqlIdentPrefix.isPrefixOf hash

/-- Function `_parse_mssql`: raw salt+checksum bytes of a well-shaped hash,
`InvalidHashError` on wrong length/prefix or a bad hex character. -/
def _parse_mssql (hash : List Char) (csize : Nat) : Except PassErr (List Nat) :=
  if hash.length = csize ∧ mssqlIdentPrefix.isPrefixOf hash then
    match unhexlify (hash.drop 6) with
    | some data => .ok data
    | none => .error .malformedHash
  else
    .error .malformedHash

/-- Parsed state of an mssql2000/2005 hash (raw salt + raw checksum;
`checksum = none` denotes a config record). -/
structure MssqlRecord where
  salt : List Nat
  checksum : Option (List Nat)
  deriving DecidableEq, Repr

namespace mssql2000

def identify (hash : List Char) : Bool := _ident_mssql hash 94

def from_string (hash : List Char) : Except PassErr MssqlRecord := do
  let data ← _parse_mssql hash 94
  .ok ⟨data.take 4, some (data.drop 4)⟩

/-- Method `to_string`: `"0x0100" + hexlify(salt + checksum).upper()`.  Only
reachable with a checksum present (`self.salt + self.checksum` would be a
`TypeError` on a config record), so `none` defaults to the empty digest. -/
def to_string (r : MssqlRecord) : List Char :=
  mssqlIdentPrefix ++ (hexlify (r.salt ++ r.checksum.getD [])).map asciiUpper

/-- Method `_calc_checksum`: case-sensitive digest then upper-cased digest. -/
def _calc_checksum (sha1 : List Nat → List Nat) (enc16 : List Char → List Nat)
    (upper : List Char → List Char) (secret : List Char) (salt : List Nat) : List Nat :=
  _raw_mssql sha1 enc16 secret salt ++ _raw_mssql sha1 enc16 (upper secret) salt

/-- The tail of `verify` after `from_string`: missing-digest check, then
constant-time compare of the recomputed digest against `chk[20:]`. -/
def verifyParsed (sha1 : List Nat → List Nat) (enc16 : List Char → List Nat)
    (upper : List Char → List Char) (secret : List Char) (r : MssqlRecord) :
    Except PassErr Bool :=
  match r.checksum with
  | none => .error .missingDigest
  | some chk => .ok (consteq (_raw_mssql sha1 enc16 (upper secret) r.salt) (chk.drop 20))

def verify (sha1 : List Nat → List Nat) (enc16 : List Char → List Nat)
    (upper : List Char → List Char) (secret hash : List Char) : Except PassErr Bool := do
  let r ← from_string hash
  verifyParsed sha1 enc16 upper secret r

/-- Modelled from the spec: `encrypt = genconfig + genhash` (§4.4); the
`GenericHandler.encrypt` machinery lives in `passlib.utils.handlers`, which
is absent from the source tree.  The caller-supplied 4-byte salt stands for
the injected CSPRNG output; an out-of-bounds salt is rejected. -/
def encrypt (sha1 : List Nat → List Nat) (enc16 : List Char → List Nat)
    (upper : List Char → List Char) (secret : List Char) (salt : List Nat) :
    Except PassErr (List Char) :=
  if salt.length = 4 then
    .ok (to_string ⟨salt, some (_calc_checksum sha1 enc16 upper secret salt)⟩)
  else
    .error .invalidSetting

end mssql2000

namespace mssql2005

def identify (hash : List Char) : Bool := _ident_mssql hash 54

def from_string (hash : List Char) : Except PassErr MssqlRecord := do
  let data ← _parse_mssql hash 54
  .ok ⟨data.take 4, some (data.drop 4)⟩

/-- Method `to_string`: `"0x0100" + hexlify(salt + checksum).upper()`. -/
def to_string (r : MssqlRecord) : List Char :=
  mssqlIdentPrefix ++ (hexlify (r.salt ++ r.checksum.getD [])).map asciiUpper

/-- Method `_calc_checksum`: single utf-16-le sha1 digest, case preserved. -/
def _calc_checksum (sha1 : List Nat → List Nat) (enc16 : List Char → List Nat)
    (secret : List Char) (salt : List Nat) : List Nat :=
  _raw_mssql sha1 enc16 secret salt

/-- Modelled from the spec: mssql2005 inherits `verify` from
`GenericHandler` (not in the source tree); §4.4: parse in strict mode
(`MissingDigestError` if the checksum is absent), recompute the checksum
with the record's own salt, compare via Constant-Time Compare. -/
def verify (sha1 : List Nat → List Nat) (enc16 : List Char → List Nat)
    (secret hash : List Char) : Except PassErr Bool := do
  let r ← from_string hash
  match r.checksum with
  | none => .error .missingDigest
  | some chk => .ok (consteq (_calc_checksum sha1 enc16 secret r.salt) chk)

/-- Modelled from the spec: `encrypt = genconfig + genhash` (§4.4), the
framework implementation being absent from the source tree. -/
def encrypt (sha1 : List Nat → List Nat) (enc16 : List Char → List Nat)
    (secret : List Char) (salt : List Nat) : Except PassErr (List Char) :=
  if salt.length = 4 then
    .ok (to_string ⟨salt, some (_calc_checksum sha1 enc16 secret salt)⟩)
  else
    .error .invalidSetting

end mssql2005

/-! ## Postgres MD5 (src/passlib/drivers/postgres.py) -/

/-- Char class `[0-9a-f]` of the postgres_md5 pattern. -/
def isLowerHexChar (c : Char) : Bool :=
  (48 ≤ c.toNat && c.toNat ≤ 57) || (97 ≤ c.toNat && c.toNat ≤ 102)

namespace postgres_md5

/-- The compiled pattern `^md5[0-9a-f]{32}$`. -/
def patMatch (h : List Char) : Bool :=
  h.take 3 == ['m', 'd', '5'] && (h.drop 3).length == 32 &&
    (h.drop 3).all isLowerHexChar

/-- Method `identify`: `bool(hash and cls._pat.match(hash))`. -/
def identify (h : List Char) : Bool := !h.isEmpty && patMatch h

/-- Method `encrypt`: rejects a missing/empty user, else
`"md5" + md5(secret + user).hexdigest().lower()` (`hexdigest` is already
lower-case, which `hexlify` mirrors).  `md5` and the utf-8 encoder are
external primitives, passed in. -/
def encrypt (md5 : List Nat → List Nat) (utf8 : List Char → List Nat)
    (secret user : List Char) : Except PassErr (List Char) :=
  if user.isEmpty then
    .error .valueError
  else
    .ok (['m', 'd', '5'] ++ hexlify (md5 (utf8 secret ++ utf8 user)))

/-- Method `genhash`: rejects a non-empty config that fails `identify`, then
defers to `encrypt`. -/
def genhash (md5 : List Nat → List Nat) (utf8 : List Char → List Nat)
    (secret config user : List Char) : Except PassErr (List Char) :=
  if !config.isEmpty && !identify config then
    .error .valueError
  else
    encrypt md5 utf8 secret user

/-- Method `verify`: rejects an empty hash, then plain string equality
`hash == genhash(secret, hash, user)`. -/
def verify (md5 : List Nat → List Nat) (utf8 : List Char → List Nat)
    (secret hash user : List Char) : Except PassErr Bool :=
  if hash.isEmpty then
    .error .valueError
  else do
    let s ← genhash md5 utf8 secret hash user
    .ok (hash == s)

end postgres_md5

/-! ## Decimal and hexadecimal integer fields (`str(int(...))`, `int(x, 16)`) -/

/-- ASCII digit test. -/
def isAsciiDigit (c : Char) : Bool := 48 ≤ c.toNat && c.toNat ≤ 57

/-- Fuel-driven core of the decimal printer (fuel `n+1` always suffices). -/
def decReprAux : Nat → Nat → List Char
  | 0, _ => []
  | fuel + 1, n =>
      if n < 10 then [Char.ofNat (48 + n)]
      else decReprAux fuel (n / 10) ++ [Char.ofNat (48 + n % 10)]

/-- Python `str` on a non-negative int: canonical decimal, no padding. -/
def decRepr (n : Nat) : List Char := decReprAux (n + 1) n

/-- Python `int()` on the digit strings the canonical-form check cares
about (signs and surrounding whitespace, which `int()` also accepts, are
rejected later by the strict bounds check and play no role here). -/
def parseDec (s : List Char) : Option Nat :=
  if s.isEmpty || !s.all isAsciiDigit then none
  else some (s.foldl (fun acc c => acc * 10 + (c.toNat - 48)) 0)

/-- Python `int(s, 16)` on hex-digit strings (either case). -/
def parseHexNat (s : List Char) : Option Nat :=
  if s.isEmpty || !s.all (fun c => (hexVal c).isSome) then none
  else some (s.foldl (fun acc c => acc * 16 + (hexVal c).getD 0) 0)

/-! ## MC3 field splitting

`passlib.utils.handlers.parse_mc3` is not under `src/`; modelled from the
spec (§4.1): strip the scheme ident prefix, split the remainder on the
scheme separator into `rounds` / `salt` / optional `checksum` fields. -/

/-- Python `str.split(sep)` on a single-char separator. -/
def splitOnChar (sep : Char) (l : List Char) : List (List Char) :=
  l.foldr (fun c acc =>
    if c = sep then [] :: acc
    else
      match acc with
      | [] => [[c]]
      | h :: t => (c :: h) :: t) [[]]

/-- Modelled from the spec: `parse_mc3` of `passlib.utils.handlers`
(absent from the source tree).  A missing checksum field is the empty
string (both falsy under the callers' `if chk` test). -/
def parse_mc3 (hash ident : List Char) (sep : Char) :
    Except PassErr (List Char × List Char × List Char) :=
  if ident.isPrefixOf hash then
    match splitOnChar sep (hash.drop ident.length) with
    | [r, s] => .ok (r, s, [])
    | [r, s, c] => .ok (r, s, c)
    | _ => .error .malformedHash
  else
    .error .malformedHash

/-! ## Adapted base64

`passlib.utils.adapted_b64_encode/decode` are not under `src/`; modelled
from the spec's glossary: a base64-like codec over the alphabet
`./0-9A-Za-z`, emitting 4 chars per 3 bytes with no padding. -/

/-- Modelled from the spec: the adapted-base64 alphabet `./0-9A-Za-z`. -/
def ab64Alphabet : List Char :=
  ['.', '/', '0', '1', '2', '3', '4', '5', '6', '7', '8', '9',
   'A', 'B', 'C', 'D', 'E', 'F', 'G', 'H', 'I', 'J', 'K', 'L', 'M',
   'N', 'O', 'P', 'Q', 'R', 'S', 'T', 'U', 'V', 'W', 'X', 'Y', 'Z',
   'a', 'b', 'c', 'd', 'e', 'f', 'g', 'h', 'i', 'j', 'k', 'l', 'm',
   'n', 'o', 'p', 'q', 'r', 's', 't', 'u', 'v', 'w', 'x', 'y', 'z']

def ab64Chr (v : Nat) : Char := ab64Alphabet.getD v '!'

def ab64Idx (c : Char) : Option Nat :=
  let i := ab64Alphabet.indexOf c
  if i < 64 then some i else none

/-- Modelled from the spec: `adapted_b64_encode`, big-endian 6-bit groups
over the adapted alphabet, partial final group, no padding. -/
def ab64Encode : List Nat → List Char
  | [] => []
  | [a] => [ab64Chr (a / 4), ab64Chr (a % 4 * 16)]
  | [a, b] => [ab64Chr (a / 4), ab64Chr (a % 4 * 16 + b / 16), ab64Chr (b % 16 * 4)]
  | a :: b :: c :: rest =>
      ab64Chr (a / 4) :: ab64Chr (a % 4 * 16 + b / 16) ::
        ab64Chr (b % 16 * 4 + c / 64) :: ab64Chr (c % 64) :: ab64Encode rest

/-- Modelled from the spec: `adapted_b64_decode`; fails on a character
outside the alphabet or an impossible length. -/
def ab64Decode : List Char → Option (List Nat)
  | [] => some []
  | [_] => none
  | [w, x] => do
      let v1 ← ab64Idx w
      let v2 ← ab64Idx x
      some [v1 * 4 + v2 / 16]
  | [w, x, y] => do
      let v1 ← ab64Idx w
      let v2 ← ab64Idx x
      let v3 ← ab64Idx y
      some [v1 * 4 + v2 / 16, v2 % 16 * 16 + v3 / 4]
  | w :: x :: y :: z :: rest => do
      let v1 ← ab64Idx w
      let v2 ← ab64Idx x
      let v3 ← ab64Idx y
      let v4 ← ab64Idx z
      let tail ← ab64Decode rest
      some ((v1 * 4 + v2 / 16) :: (v2 % 16 * 16 + v3 / 4) :: (v3 % 4 * 64 + v4) :: tail)

/-! ## bcrypt (src/passlib/drivers/bcrypt.py) -/

/-- Char class `[A-Za-z0-9./]` of the bcrypt pattern. -/
def isBcryptB64Char (c : Char) : Bool :=
  (65 ≤ c.toNat && c.toNat ≤ 90) || (97 ≤ c.toNat && c.toNat ≤ 122) ||
    (48 ≤ c.toNat && c.toNat ≤ 57) || c == '.' || c == '/'

/-- Parsed / constructable state of a bcrypt hash. -/
structure BcryptRecord where
  ident : List Char
  rounds : Nat
  salt : List Char
  checksum : Option (List Char)
  deriving DecidableEq, Repr

namespace bcrypt

def identify (h : List Char) : Bool :=
  !h.isEmpty && (['$', '2', '$'].isPrefixOf h || ['$', '2', 'a', '$'].isPrefixOf h)

/-- Matching of everything after the ident field of the bcrypt pattern:
two digits, `$`, a 22-char salt, an optional 31-char checksum. -/
def patMatchTail (ident : List Char) (rest : List Char) :
    Option (List Char × Nat × List Char × Option (List Char)) :=
  match rest with
  | d1 :: d2 :: '$' :: body =>
      if isAsciiDigit d1 && isAsciiDigit d2 then
        if (body.take 22).length = 22 ∧ (body.take 22).all isBcryptB64Char then
          match body.drop 22 with
          | [] =>
              some (ident, (d1.toNat - 48) * 10 + (d2.toNat - 48), body.take 22, none)
          | chk =>
              if chk.length = 31 ∧ chk.all isBcryptB64Char then
                some (ident, (d1.toNat - 48) * 10 + (d2.toNat - 48), body.take 22,
                  some chk)
              else none
        else none
      else none
  | _ => none

/-- The compiled regex
`^\$(2a?)\$(\d{2})\$([A-Za-z0-9./]{22})([A-Za-z0-9./]{31})?$` as a
deterministic parser: ident, rounds value, salt, optional checksum. -/
def patMatch (h : List Char) :
    Option (List Char × Nat × List Char × Option (List Char)) :=
  match h with
  | '$' :: '2' :: 'a' :: '$' :: rest => patMatchTail ['2', 'a'] rest
  | '$' :: '2' :: '$' :: rest => patMatchTail ['2'] rest
  | _ => none

/-- Modelled from the spec: relaxed rounds normalization of the missing
`passlib.utils.drivers` framework corrects an out-of-range value (§4.1). -/
def clampRounds (n : Nat) : Nat := min 31 (max 4 n)

/-- Method `from_string`: empty-hash guard, regex match, then construction with
`strict=bool(chk)`.  The constructor normalization lives in the missing
`passlib.utils.drivers` framework and is modelled from the spec: strict
mode rejects out-of-bounds rounds, relaxed mode corrects them. -/
def from_string (h : List Char) : Except PassErr BcryptRecord :=
  if h.isEmpty then
    .error .valueError
  else
    match patMatch h with
    | none => .error .malformedHash
    | some (ident, n, salt, chk) =>
        match chk with
        | some c =>
            if 4 ≤ n ∧ n ≤ 31 then .ok ⟨ident, n, salt, some c⟩
            else .error .invalidSetting
        | none => .ok ⟨ident, clampRounds n, salt, none⟩

/-- Python `"%02d"` on a non-negative int. -/
def pyFmt02d (n : Nat) : List Char :=
  if n < 10 then '0' :: decRepr n else decRepr n

/-- Method `to_string`: `"$%s$%02d$%s%s"` with the empty string for a missing
checksum. -/
def to_string (r : BcryptRecord) : List Char :=
  '$' :: r.ident ++ '$' :: pyFmt02d r.rounds ++ '$' :: r.salt ++ r.checksum.getD []

end bcrypt

/-- The strict shape of the claim: ident, two digits, 22-char salt,
31-char checksum, `$`-separated. -/
def bcryptStrictShape (h ident : List Char) (d1 d2 : Char) (salt chk : List Char) : Prop :=
  (ident = ['2'] ∨ ident = ['2', 'a']) ∧ isAsciiDigit d1 = true ∧
    isAsciiDigit d2 = true ∧ salt.length = 22 ∧ salt.all isBcryptB64Char = true ∧
    chk.length = 31 ∧ chk.all isBcryptB64Char = true ∧
    h = '$' :: ident ++ '$' :: d1 :: d2 :: '$' :: (salt ++ chk)

/-- The checksum-less config shape also accepted by `bcrypt.from_string`. -/
def bcryptConfigShape (h ident : List Char) (d1 d2 : Char) (salt : List Char) : Prop :=
  (ident = ['2'] ∨ ident = ['2', 'a']) ∧ isAsciiDigit d1 = true ∧
    isAsciiDigit d2 = true ∧ salt.length = 22 ∧ salt.all isBcryptB64Char = true ∧
    h = '$' :: ident ++ '$' :: d1 :: d2 :: '$' :: salt

/-! ## PBKDF2 family (src/passlib/handlers/pbkdf2.py) -/

/-- Parsed / constructable state of the `pbkdf2_{digest}` and grub
handlers (rounds, raw salt, optional raw checksum). -/
structure PbkdfRecord where
  rounds : Nat
  salt : List Nat
  checksum : Option (List Nat)
  deriving DecidableEq, Repr

/-- Modelled from the spec: `HasRounds` relaxed normalization corrects an
out-of-range rounds value into the scheme's bounds (§4.1). -/
def clampRoundsLinear (lo hi n : Nat) : Nat := min hi (max lo n)

namespace Pbkdf2DigestHandler

/-- Scheme ident `"$pbkdf2-%s$"`. -/
def identOf (hashName : List Char) : List Char :=
  '$' :: 'p' :: 'b' :: 'k' :: 'd' :: 'f' :: '2' :: '-' :: hashName ++ ['$']

/-- Method `from_string`: parse the three MC3 fields, forbid a non-canonical
rounds field (`rounds != str(int(rounds))`), decode salt and checksum from
adapted base64, then construct with `strict=bool(raw_chk)`.  The
constructor bounds checks (`min_rounds=1`, `max_rounds=2**32-1`,
`max_salt_chars=1024`) live in the missing `passlib.utils.handlers`
framework and are modelled from the spec: strict rejects, relaxed
corrects. -/
def from_string (ident h : List Char) : Except PassErr PbkdfRecord :=
  if h.isEmpty then
    .error .valueError
  else do
    let (rf, sf, cf) ← parse_mc3 h ident '$'
    match parseDec rf with
    | none => .error .malformedHash
    | some n =>
        if rf ≠ decRepr n then
          .error .malformedHash
        else
          match ab64Decode sf with
          | none => .error .malformedHash
          | some rawSalt =>
              if cf.isEmpty then
                .ok ⟨clampRoundsLinear 1 (2 ^ 32 - 1) n, rawSalt.take 1024, none⟩
              else
                match ab64Decode cf with
                | none => .error .malformedHash
                | some rawChk =>
                    if 1 ≤ n ∧ n ≤ 2 ^ 32 - 1 ∧ rawSalt.length ≤ 1024 then
                      .ok ⟨n, rawSalt, some rawChk⟩
                    else
                      .error .invalidSetting

/-- Method `to_string` with `withchk=True`: `"%s%d$%s$%s"`, or without the
checksum field when the record has none. -/
def to_string (ident : List Char) (r : PbkdfRecord) : List Char :=
  match r.checksum with
  | some chk =>
      ident ++ decRepr r.rounds ++ '$' :: ab64Encode r.salt ++ '$' :: ab64Encode chk
  | none => ident ++ decRepr r.rounds ++ '$' :: ab64Encode r.salt

end Pbkdf2DigestHandler

/-- Ident of `pbkdf2_sha1`. -/
def pbkdf2_sha1_ident : List Char := Pbkdf2DigestHandler.identOf ['s', 'h', 'a', '1']

/-- Ident of `pbkdf2_sha256`. -/
def pbkdf2_sha256_ident : List Char :=
  Pbkdf2DigestHandler.identOf ['s', 'h', 'a', '2', '5', '6']

/-- Ident of `pbkdf2_sha512`. -/
def pbkdf2_sha512_ident : List Char :=
  Pbkdf2DigestHandler.identOf ['s', 'h', 'a', '5', '1', '2']

namespace grub_pbkdf2_sha512

/-- Scheme ident `"grub.pbkdf2.sha512."`. -/
def ident : List Char :=
  ['g', 'r', 'u', 'b', '.', 'p', 'b', 'k', 'd', 'f', '2', '.',
   's', 'h', 'a', '5', '1', '2', '.']

/-- Method `from_string`: like the pbkdf2 family but dot-separated and with hex
salt/checksum fields (`unhexlify`); same canonical-rounds rule and the
same spec-modelled constructor bounds. -/
def from_string (h : List Char) : Except PassErr PbkdfRecord :=
  if h.isEmpty then
    .error .valueError
  else do
    let (rf, sf, cf) ← parse_mc3 h ident '.'
    match parseDec rf with
    | none => .error .malformedHash
    | some n =>
        if rf ≠ decRepr n then
          .error .malformedHash
        else
          match unhexlify sf with
          | none => .error .malformedHash
          | some rawSalt =>
              if cf.isEmpty then
                .ok ⟨clampRoundsLinear 1 (2 ^ 32 - 1) n, rawSalt.take 1024, none⟩
              else
                match unhexlify cf with
                | none => .error .malformedHash
                | some rawChk =>
                    if 1 ≤ n ∧ n ≤ 2 ^ 32 - 1 ∧ rawSalt.length ≤ 1024 then
                      .ok ⟨n, rawSalt, some rawChk⟩
                    else
                      .error .invalidSetting

/-- Method `to_string` with `withchk=True`: hex fields upper-cased on output. -/
def to_string (r : PbkdfRecord) : List Char :=
  match r.checksum with
  | some chk =>
      ident ++ decRepr r.rounds ++ '.' :: (hexlify r.salt).map asciiUpper ++
        '.' :: (hexlify chk).map asciiUpper
  | none => ident ++ decRepr r.rounds ++ '.' :: (hexlify r.salt).map asciiUpper

end grub_pbkdf2_sha512

/-- Parsed / constructable state of `dlitz_pbkdf2_sha1` (character salt
and checksum, `HasSalt` rather than `HasRawSalt`). -/
structure DlitzRecord where
  rounds : Nat
  salt : List Char
  checksum : Option (List Char)
  deriving DecidableEq, Repr

namespace dlitz_pbkdf2_sha1

/-- Scheme ident `"$p5k2$"`. -/
def ident : List Char := ['$', 'p', '5', 'k', '2', '$']

/-- Method `from_string`: rounds field in hex, empty meaning 400; only a leading
zero is rejected (`rounds.startswith("0")`).  Salt/checksum normalization
of the missing framework is modelled from the spec as bounds checks
(`min_rounds=0`, `max_rounds=2**32-1`, `max_salt_chars=1024`). -/
def from_string (h : List Char) : Except PassErr DlitzRecord :=
  if h.isEmpty then
    .error .valueError
  else do
    let (rf, sf, cf) ← parse_mc3 h ident '$'
    if rf.head? = some '0' then
      .error .malformedHash
    else
      match if rf.isEmpty then some 400 else parseHexNat rf with
      | none => .error .malformedHash
      | some n =>
          if cf.isEmpty then
            .ok ⟨clampRoundsLinear 0 (2 ^ 32 - 1) n, sf.take 1024, none⟩
          else if n ≤ 2 ^ 32 - 1 ∧ sf.length ≤ 1024 then
            .ok ⟨n, sf, some cf⟩
          else
            .error .invalidSetting

/-- Python `"%x"`: lower-case hex, no padding, used for the rounds field
(fuel `n+1` always suffices). -/
def hexReprAux : Nat → Nat → List Char
  | 0, _ => []
  | fuel + 1, n =>
      if n < 16 then [hexDigitLower n]
      else hexReprAux fuel (n / 16) ++ [hexDigitLower (n % 16)]

def hexRepr (n : Nat) : List Char := hexReprAux (n + 1) n

/-- Method `to_string` with `withchk=True`: `"$p5k2$%x$%s"`, with the rounds
field left empty when rounds is the 400 default. -/
def to_string (r : DlitzRecord) : List Char :=
  let out :=
    if r.rounds = 400 then ident ++ '$' :: r.salt
    else ident ++ hexRepr r.rounds ++ '$' :: r.salt
  match r.checksum with
  | some chk => out ++ '$' :: chk
  | none => out

end dlitz_pbkdf2_sha1

/-! ## Supporting lemmas -/

theorem hexVal_hexDigitLower {n : Nat} (h : n < 16) :
    hexVal (hexDigitLower n) = some n := by
  interval_cases n <;> decide

theorem hexVal_asciiUpper_hexDigitLower {n : Nat} (h : n < 16) :
    hexVal (asciiUpper (hexDigitLower n)) = some n := by
  interval_cases n <;> decide

theorem hexlify_cons (b : Nat) (bs : List Nat) :
    hexlify (b :: bs) = hexDigitLower (b / 16) :: hexDigitLower (b % 16) :: hexlify bs := rfl

theorem unhexlify_hexlify {bs : List Nat} (h : ∀ b ∈ bs, b < 256) :
    unhexlify (hexlify bs) = some bs := by
  induction bs with
  | nil => rfl
  | cons b rest ih =>
      have hb : b < 256 := h b (List.mem_cons_self ..)
      have hdiv : b / 16 < 16 := by omega
      have hmod : b % 16 < 16 := by omega
      have hrest := ih (fun x hx => h x (List.mem_cons_of_mem _ hx))
      rw [hexlify_cons]
      simp only [unhexlify, hexVal_hexDigitLower hdiv, hexVal_hexDigitLower hmod,
        hrest, Option.bind_eq_bind, Option.some_bind]
      have hcomb : b / 16 * 16 + b % 16 = b := by omega
      rw [hcomb]

theorem unhexlify_map_asciiUpper_hexlify {bs : List Nat} (h : ∀ b ∈ bs, b < 256) :
    unhexlify ((hexlify bs).map asciiUpper) = some bs := by
  induction bs with
  | nil => rfl
  | cons b rest ih =>
      have hb : b < 256 := h b (List.mem_cons_self ..)
      have hdiv : b / 16 < 16 := by omega
      have hmod : b % 16 < 16 := by omega
      have hrest := ih (fun x hx => h x (List.mem_cons_of_mem _ hx))
      rw [hexlify_cons, List.map_cons, List.map_cons]
      simp only [unhexlify, hexVal_asciiUpper_hexDigitLower hdiv,
        hexVal_asciiUpper_hexDigitLower hmod, hrest, Option.bind_eq_bind, Option.some_bind]
      have hcomb : b / 16 * 16 + b % 16 = b := by omega
      rw [hcomb]

theorem length_hexlify (bs : List Nat) : (hexlify bs).length = 2 * bs.length := by
  induction bs with
  | nil => rfl
  | cons b rest ih =>
      rw [hexlify_cons]
      simp only [List.length_cons, ih]
      omega

theorem nat_lor_eq_zero {a b : Nat} : Nat.lor a b = 0 ↔ a = 0 ∧ b = 0 := by
  constructor
  · intro h
    change a ||| b = 0 at h
    have hbit : ∀ i, a.testBit i = false ∧ b.testBit i = false := by
      intro i
      have h2 := congrArg (fun n => Nat.testBit n i) h
      simp only [Nat.testBit_lor, Nat.zero_testBit, Bool.or_eq_false_iff] at h2
      exact h2
    exact ⟨Nat.eq_of_testBit_eq (fun i => by simp [(hbit i).1, Nat.zero_testBit]),
           Nat.eq_of_testBit_eq (fun i => by simp [(hbit i).2, Nat.zero_testBit])⟩
  · rintro ⟨rfl, rfl⟩
    rfl

theorem foldl_lor_eq_zero (l : List Nat) (acc : Nat) :
    l.foldl Nat.lor acc = 0 ↔ acc = 0 ∧ ∀ x ∈ l, x = 0 := by
  induction l generalizing acc with
  | nil => simp
  | cons y ys ih =>
      simp only [List.foldl_cons, ih, nat_lor_eq_zero, List.mem_cons]
      constructor
      · rintro ⟨⟨h1, h2⟩, h3⟩
        exact ⟨h1, fun x hx => by rcases hx with rfl | hx; exacts [h2, h3 x hx]⟩
      · rintro ⟨h1, h2⟩
        exact ⟨⟨h1, h2 y (Or.inl rfl)⟩, fun x hx => h2 x (Or.inr hx)⟩

theorem eq_of_zipWith_xor_zero {a b : List Nat} (hlen : a.length = b.length)
    (h : ∀ x ∈ List.zipWith Nat.xor a b, x = 0) : a = b := by
  induction a generalizing b with
  | nil =>
      cases b with
      | nil => rfl
      | cons _ _ => simp at hlen
  | cons x xs ih =>
      cases b with
      | nil => simp at hlen
      | cons y ys =>
          have hx : Nat.xor x y = 0 := h _ (by simp [List.zipWith_cons_cons])
          have hxy : x = y := Nat.xor_eq_zero.mp hx
          subst hxy
          have htail := ih (show xs.length = ys.length by simpa using hlen)
            (fun z hz => h z (by simp [List.zipWith_cons_cons, hz]))
          rw [htail]

theorem zipWith_xor_self_zero (a : List Nat) :
    ∀ x ∈ List.zipWith Nat.xor a a, x = 0 := by
  induction a with
  | nil => simp
  | cons y ys ih =>
      intro x hx
      simp only [List.zipWith_cons_cons, List.mem_cons] at hx
      rcases hx with rfl | hx
      · exact Nat.xor_self y
      · exact ih x hx

theorem consteq_eq_true_iff {a b : List Nat} : consteq a b = true ↔ a = b := by
  unfold consteq
  split
  · rename_i hlen
    rw [beq_iff_eq, foldl_lor_eq_zero]
    constructor
    · rintro ⟨-, h⟩
      exact eq_of_zipWith_xor_zero hlen h
    · rintro rfl
      exact ⟨rfl, zipWith_xor_self_zero a⟩
  · rename_i hlen
    exact ⟨fun h => (Bool.false_ne_true h).elim, fun h => absurd (by rw [h]) hlen⟩

theorem char_toNat_ofNat_small {n : Nat} (h : n < 55296) : (Char.ofNat n).toNat = n := by
  rw [Char.ofNat, dif_pos (Or.inl h)]
  rfl

theorem char_eq_of_toNat_eq {a b : Char} (h : a.toNat = b.toNat) : a = b := by
  have ha := Char.ofNat_toNat a
  rw [h, Char.ofNat_toNat] at ha
  exact ha.symm

/-! ### Decimal printer -/

theorem decReprAux_digits : ∀ fuel n, n < fuel →
    ∀ c ∈ decReprAux fuel n, isAsciiDigit c = true := by
  intro fuel
  induction fuel with
  | zero => omega
  | succ fuel ih =>
      intro n hn c hc
      rw [decReprAux] at hc
      split at hc
      · rename_i h10
        simp only [List.mem_singleton] at hc
        subst hc
        unfold isAsciiDigit
        have : (Char.ofNat (48 + n)).toNat = 48 + n := char_toNat_ofNat_small (by omega)
        simp [this]
        omega
      · rename_i h10
        rw [List.mem_append] at hc
        rcases hc with hc | hc
        · exact ih (n / 10) (by omega) c hc
        · simp only [List.mem_singleton] at hc
          subst hc
          unfold isAsciiDigit
          have : (Char.ofNat (48 + n % 10)).toNat = 48 + n % 10 :=
            char_toNat_ofNat_small (by omega)
          simp [this]
          omega

theorem decReprAux_ne_nil : ∀ fuel n, n < fuel → decReprAux fuel n ≠ [] := by
  intro fuel
  induction fuel with
  | zero => omega
  | succ fuel ih =>
      intro n hn
      rw [decReprAux]
      split
      · simp
      · simp

theorem decRepr_digits (n : Nat) : ∀ c ∈ decRepr n, isAsciiDigit c = true :=
  decReprAux_digits (n + 1) n (by omega)

theorem decRepr_ne_nil (n : Nat) : decRepr n ≠ [] :=
  decReprAux_ne_nil (n + 1) n (by omega)

theorem decReprAux_foldl : ∀ fuel n acc, n < fuel →
    (decReprAux fuel n).foldl (fun acc c => acc * 10 + (c.toNat - 48)) acc =
      acc * 10 ^ (decReprAux fuel n).length + n := by
  intro fuel
  induction fuel with
  | zero => omega
  | succ fuel ih =>
      intro n acc hn
      rw [decReprAux]
      split
      · rename_i h10
        have hch : (Char.ofNat (48 + n)).toNat = 48 + n := char_toNat_ofNat_small (by omega)
        simp only [List.foldl_cons, List.foldl_nil, hch, List.length_singleton, pow_one]
        omega
      · rename_i h10
        have hlt : n / 10 < fuel := by omega
        rw [List.foldl_append, ih (n / 10) acc hlt]
        have : (Char.ofNat (48 + n % 10)).toNat = 48 + n % 10 :=
          char_toNat_ofNat_small (by omega)
        simp only [List.foldl_cons, List.foldl_nil, this, List.length_append,
          List.length_singleton]
        rw [pow_succ]
        have hmod : 48 + n % 10 - 48 = n % 10 := by omega
        rw [hmod]
        ring_nf
        omega

theorem parseDec_decRepr (n : Nat) : parseDec (decRepr n) = some n := by
  have h1 : (decRepr n).isEmpty = false := by
    simp [List.isEmpty_iff, decRepr_ne_nil n]
  have h2 : (decRepr n).all isAsciiDigit = true := List.all_eq_true.mpr (decRepr_digits n)
  unfold parseDec
  split
  · rename_i hcond
    rw [h1, h2] at hcond
    simp at hcond
  · congr 1
    unfold decRepr
    rw [decReprAux_foldl (n + 1) n 0 (by omega)]
    simp

theorem digit_ne_dollar {c : Char} (h : isAsciiDigit c = true) : c ≠ '$' := by
  intro hc
  subst hc
  simp [isAsciiDigit] at h

theorem digit_ne_dot {c : Char} (h : isAsciiDigit c = true) : c ≠ '.' := by
  intro hc
  subst hc
  simp [isAsciiDigit] at h

/-! ### Field splitting -/

theorem splitOnChar_nil (sep : Char) : splitOnChar sep [] = [[]] := rfl

theorem splitOnChar_cons (sep c : Char) (l : List Char) :
    splitOnChar sep (c :: l) =
      (if c = sep then [] :: splitOnChar sep l
       else
         match splitOnChar sep l with
         | [] => [[c]]
         | h :: t => (c :: h) :: t) := rfl

theorem splitOnChar_ne_nil (sep : Char) (l : List Char) : splitOnChar sep l ≠ [] := by
  induction l with
  | nil => simp [splitOnChar_nil]
  | cons c cs ih =>
      rw [splitOnChar_cons]
      split
      · simp
      · split
        · simp
        · simp

theorem splitOnChar_no_sep {sep : Char} {l : List Char} (h : ∀ c ∈ l, c ≠ sep) :
    splitOnChar sep l = [l] := by
  induction l with
  | nil => rfl
  | cons c cs ih =>
      rw [splitOnChar_cons]
      rw [ih (fun x hx => h x (List.mem_cons_of_mem _ hx))]
      rw [if_neg (h c (List.mem_cons_self ..))]

theorem splitOnChar_append_sep {sep : Char} {a : List Char} (b : List Char)
    (h : ∀ c ∈ a, c ≠ sep) :
    splitOnChar sep (a ++ sep :: b) = a :: splitOnChar sep b := by
  induction a with
  | nil =>
      simp only [List.nil_append]
      rw [splitOnChar_cons, if_pos rfl]
  | cons x xs ih =>
      simp only [List.cons_append]
      rw [splitOnChar_cons, ih (fun c hc => h c (List.mem_cons_of_mem _ hc)),
        if_neg (h x (List.mem_cons_self ..))]

/-! ### Adapted base64 -/

theorem ab64Idx_ab64Chr : ∀ v, v < 64 → ab64Idx (ab64Chr v) = some v := by decide

theorem ab64Chr_ne_dollar (v : Nat) : ab64Chr v ≠ '$' := by
  by_cases h : v < 64
  · revert h
    revert v
    decide
  · unfold ab64Chr
    rw [List.getD_eq_default]
    · decide
    · simp only [not_lt] at h
      calc ab64Alphabet.length = 64 := by decide
        _ ≤ v := h

theorem mem_ab64Encode {bs : List Nat} {c : Char} (h : c ∈ ab64Encode bs) :
    ∃ v, c = ab64Chr v := by
  induction bs using ab64Encode.induct with
  | case1 => simp [ab64Encode] at h
  | case2 a =>
      simp only [ab64Encode, List.mem_cons, List.mem_singleton, List.not_mem_nil,
        or_false] at h
      rcases h with h | h
      all_goals exact ⟨_, h⟩
  | case3 a b =>
      simp only [ab64Encode, List.mem_cons, List.not_mem_nil, or_false] at h
      rcases h with h | h | h
      all_goals exact ⟨_, h⟩
  | case4 a b c' rest ih =>
      simp only [ab64Encode, List.mem_cons] at h
      rcases h with h | h | h | h | h
      · exact ⟨_, h⟩
      · exact ⟨_, h⟩
      · exact ⟨_, h⟩
      · exact ⟨_, h⟩
      · exact ih h

theorem ab64Encode_no_dollar {bs : List Nat} : ∀ c ∈ ab64Encode bs, c ≠ '$' := by
  intro c hc
  obtain ⟨v, rfl⟩ := mem_ab64Encode hc
  exact ab64Chr_ne_dollar v

theorem ab64Encode_ne_nil {bs : List Nat} (h : bs ≠ []) : ab64Encode bs ≠ [] := by
  match bs with
  | [] => exact absurd rfl h
  | [a] => simp [ab64Encode]
  | [a, b] => simp [ab64Encode]
  | a :: b :: c :: rest => simp [ab64Encode]

theorem ab64Decode_ab64Encode {bs : List Nat} (h : ∀ b ∈ bs, b < 256) :
    ab64Decode (ab64Encode bs) = some bs := by
  induction bs using ab64Encode.induct with
  | case1 => rfl
  | case2 a =>
      have ha : a < 256 := h a (by simp)
      simp only [ab64Encode, ab64Decode,
        ab64Idx_ab64Chr (a / 4) (by omega),
        ab64Idx_ab64Chr (a % 4 * 16) (by omega),
        Option.bind_eq_bind, Option.some_bind]
      have e1 : a / 4 * 4 + a % 4 * 16 / 16 = a := by omega
      rw [e1]
  | case3 a b =>
      have ha : a < 256 := h a (by simp)
      have hb : b < 256 := h b (by simp)
      simp only [ab64Encode, ab64Decode,
        ab64Idx_ab64Chr (a / 4) (by omega),
        ab64Idx_ab64Chr (a % 4 * 16 + b / 16) (by omega),
        ab64Idx_ab64Chr (b % 16 * 4) (by omega),
        Option.bind_eq_bind, Option.some_bind]
      have e1 : a / 4 * 4 + (a % 4 * 16 + b / 16) / 16 = a := by omega
      have e2 : (a % 4 * 16 + b / 16) % 16 * 16 + b % 16 * 4 / 4 = b := by omega
      rw [e1, e2]
  | case4 a b c rest ih =>
      have ha : a < 256 := h a (by simp)
      have hb : b < 256 := h b (by simp)
      have hc : c < 256 := h c (by simp)
      have hrest := ih (fun x hx => h x (by simp [hx]))
      simp only [ab64Encode, ab64Decode,
        ab64Idx_ab64Chr (a / 4) (by omega),
        ab64Idx_ab64Chr (a % 4 * 16 + b / 16) (by omega),
        ab64Idx_ab64Chr (b % 16 * 4 + c / 64) (by omega),
        ab64Idx_ab64Chr (c % 64) (by omega),
        hrest, Option.bind_eq_bind, Option.some_bind]
      have e1 : a / 4 * 4 + (a % 4 * 16 + b / 16) / 16 = a := by omega
      have e2 : (a % 4 * 16 + b / 16) % 16 * 16 + (b % 16 * 4 + c / 64) / 4 = b := by omega
      have e3 : (b % 16 * 4 + c / 64) % 4 * 64 + c % 64 = c := by omega
      rw [e1, e2, e3]

/-! ### Hex characters -/

theorem hexVal_lt {c : Char} {v : Nat} (h : hexVal c = some v) : v < 16 := by
  unfold hexVal at h
  split at h
  · rename_i hr
    injection h with h
    omega
  · split at h
    · rename_i hr
      injection h with h
      omega
    · split at h
      · rename_i hr
        injection h with h
        omega
      · exact absurd h (by simp)

theorem asciiUpper_hexDigitLower_of_hexVal {c : Char} {v : Nat} (h : hexVal c = some v) :
    asciiUpper (hexDigitLower v) = asciiUpper c := by
  unfold hexVal at h
  split at h
  · rename_i hr
    injection h with h
    have hc : hexDigitLower v = c := by
      apply char_eq_of_toNat_eq
      unfold hexDigitLower
      rw [if_pos (by omega : v < 10), char_toNat_ofNat_small (by omega)]
      omega
    rw [hc]
  · split at h
    · rename_i hr
      injection h with h
      have hc : hexDigitLower v = c := by
        apply char_eq_of_toNat_eq
        unfold hexDigitLower
        rw [if_neg (by omega : ¬ v < 10), char_toNat_ofNat_small (by omega)]
        omega
      rw [hc]
    · split at h
      · rename_i hr
        injection h with h
        have h1 : hexDigitLower v = Char.ofNat (87 + v) := by
          unfold hexDigitLower
          rw [if_neg (by omega : ¬ v < 10)]
        have htn : (Char.ofNat (87 + v)).toNat = 87 + v :=
          char_toNat_ofNat_small (by omega)
        have h2 : asciiUpper (Char.ofNat (87 + v)) = Char.ofNat (87 + v - 32) := by
          unfold asciiUpper
          rw [if_pos (by rw [htn]; omega), htn]
        have h3 : asciiUpper c = c := by
          unfold asciiUpper
          rw [if_neg (by omega)]
        rw [h1, h2, h3]
        apply char_eq_of_toNat_eq
        rw [char_toNat_ofNat_small (by omega)]
        omega
      · exact absurd h (by simp)

theorem unhexlify_sound {s : List Char} {data : List Nat} (h : unhexlify s = some data) :
    (hexlify data).map asciiUpper = s.map asciiUpper ∧ 2 * data.length = s.length ∧
      ∀ b ∈ data, b < 256 := by
  induction s using unhexlify.induct generalizing data with
  | case1 =>
      rw [unhexlify] at h
      injection h with h
      subst h
      simp [hexlify]
  | case2 c =>
      rw [unhexlify] at h
      exact absurd h (by simp)
  | case3 c1 c2 rest ih =>
      rw [unhexlify] at h
      cases hv1 : hexVal c1 with
      | none => rw [hv1] at h; exact absurd h (by simp)
      | some v1 =>
          cases hv2 : hexVal c2 with
          | none => rw [hv1, hv2] at h; exact absurd h (by simp)
          | some v2 =>
              cases ht : unhexlify rest with
              | none => rw [hv1, hv2, ht] at h; exact absurd h (by simp)
              | some tail =>
                  rw [hv1, hv2, ht] at h
                  simp only [Option.bind_eq_bind, Option.some_bind] at h
                  injection h with h
                  subst h
                  obtain ⟨ih1, ih2, ih3⟩ := ih ht
                  have hb1 : v1 < 16 := hexVal_lt hv1
                  have hb2 : v2 < 16 := hexVal_lt hv2
                  refine ⟨?_, by simp [List.length_cons]; omega,
                    fun b hb => by
                      rcases List.mem_cons.mp hb with rfl | hb
                      · omega
                      · exact ih3 b hb⟩
                  rw [hexlify_cons]
                  have e1 : (v1 * 16 + v2) / 16 = v1 := by omega
                  have e2 : (v1 * 16 + v2) % 16 = v2 := by omega
                  rw [e1, e2]
                  simp only [List.map_cons]
                  rw [asciiUpper_hexDigitLower_of_hexVal hv1,
                    asciiUpper_hexDigitLower_of_hexVal hv2, ih1]

theorem isLowerHexChar_hexDigitLower {v : Nat} (h : v < 16) :
    isLowerHexChar (hexDigitLower v) = true := by
  interval_cases v <;> decide

theorem hexlify_all_lower {bs : List Nat} (h : ∀ b ∈ bs, b < 256) :
    (hexlify bs).all isLowerHexChar = true := by
  induction bs with
  | nil => rfl
  | cons b rest ih =>
      rw [hexlify_cons]
      have hb : b < 256 := h b (List.mem_cons_self ..)
      simp only [List.all_cons, isLowerHexChar_hexDigitLower (by omega : b / 16 < 16),
        isLowerHexChar_hexDigitLower (by omega : b % 16 < 16), Bool.true_and]
      exact ih (fun x hx => h x (List.mem_cons_of_mem _ hx))

theorem upperHex_ne_dot {v : Nat} (h : v < 16) : asciiUpper (hexDigitLower v) ≠ '.' := by
  interval_cases v <;> decide

theorem map_asciiUpper_hexlify_no_dot {bs : List Nat} (h : ∀ b ∈ bs, b < 256) :
    ∀ c ∈ (hexlify bs).map asciiUpper, c ≠ '.' := by
  induction bs with
  | nil => simp [hexlify]
  | cons b rest ih =>
      have hb : b < 256 := h b (List.mem_cons_self ..)
      rw [hexlify_cons]
      intro c hc
      simp only [List.map_cons, List.mem_cons] at hc
      rcases hc with rfl | rfl | hc
      · exact upperHex_ne_dot (by omega)
      · exact upperHex_ne_dot (by omega)
      · exact ih (fun x hx => h x (List.mem_cons_of_mem _ hx)) c hc

/-! ### parse_mc3 -/

theorem parse_mc3_three {ident r s c : List Char} {sep : Char}
    (hr : ∀ x ∈ r, x ≠ sep) (hs : ∀ x ∈ s, x ≠ sep) (hc : ∀ x ∈ c, x ≠ sep) :
    parse_mc3 (ident ++ (r ++ sep :: (s ++ sep :: c))) ident sep = .ok (r, s, c) := by
  unfold parse_mc3
  rw [if_pos (List.isPrefixOf_iff_prefix.mpr (List.prefix_append ..)),
    List.drop_left, splitOnChar_append_sep _ hr, splitOnChar_append_sep _ hs,
    splitOnChar_no_sep hc]

theorem parse_mc3_two {ident r s : List Char} {sep : Char}
    (hr : ∀ x ∈ r, x ≠ sep) (hs : ∀ x ∈ s, x ≠ sep) :
    parse_mc3 (ident ++ (r ++ sep :: s)) ident sep = .ok (r, s, []) := by
  unfold parse_mc3
  rw [if_pos (List.isPrefixOf_iff_prefix.mpr (List.prefix_append ..)),
    List.drop_left, splitOnChar_append_sep _ hr, splitOnChar_no_sep hs]

/-! ### MSSQL parsing -/

theorem _parse_mssql_roundtrip {data : List Nat} (hb : ∀ b ∈ data, b < 256) :
    _parse_mssql (mssqlIdentPrefix ++ (hexlify data).map asciiUpper)
      (6 + 2 * data.length) = .ok data := by
  unfold _parse_mssql
  rw [if_pos]
  · rw [List.drop_left' (by simp [mssqlIdentPrefix]),
      unhexlify_map_asciiUpper_hexlify hb]
  · constructor
    · simp [mssqlIdentPrefix, length_hexlify data]
      omega
    · exact List.isPrefixOf_iff_prefix.mpr (List.prefix_append ..)

/-! ### bcrypt pattern -/
theorem bcrypt_patMatch_2a (rest : List Char) :
    bcrypt.patMatch ('$' :: '2' :: 'a' :: '$' :: rest) = bcrypt.patMatchTail ['2', 'a'] rest := rfl

theorem bcrypt_patMatch_2 (rest : List Char) :
    bcrypt.patMatch ('$' :: '2' :: '$' :: rest) = bcrypt.patMatchTail ['2'] rest := rfl

theorem pyFmt02d_spec : ∀ n, n < 100 →
    (bcrypt.pyFmt02d n).length = 2 ∧
    isAsciiDigit ((bcrypt.pyFmt02d n).getD 0 'x') = true ∧
    isAsciiDigit ((bcrypt.pyFmt02d n).getD 1 'x') = true ∧
    (((bcrypt.pyFmt02d n).getD 0 'x').toNat - 48) * 10 +
      (((bcrypt.pyFmt02d n).getD 1 'x').toNat - 48) = n := by decide

theorem pyFmt02d_pair {n : Nat} (hn : n < 100) :
    ∃ d1 d2, bcrypt.pyFmt02d n = [d1, d2] ∧ isAsciiDigit d1 = true ∧
      isAsciiDigit d2 = true ∧ (d1.toNat - 48) * 10 + (d2.toNat - 48) = n := by
  obtain ⟨hlen, hd0, hd1, hval⟩ := pyFmt02d_spec n hn
  match hp : bcrypt.pyFmt02d n with
  | [d1, d2] =>
      rw [hp] at hd0 hd1 hval
      simp only [List.getD_cons_zero, List.getD_cons_succ] at hd0 hd1 hval
      exact ⟨d1, d2, rfl, hd0, hd1, hval⟩
  | [] => rw [hp] at hlen; simp at hlen
  | [_] => rw [hp] at hlen; simp at hlen
  | _ :: _ :: _ :: _ => rw [hp] at hlen; simp at hlen

theorem patMatchTail_complete_chk {ident : List Char} {n : Nat} {salt chk : List Char}
    (hn : n < 100) (hs : salt.length = 22) (hsa : salt.all isBcryptB64Char = true)
    (hc : chk.length = 31) (hca : chk.all isBcryptB64Char = true) :
    bcrypt.patMatchTail ident (bcrypt.pyFmt02d n ++ '$' :: (salt ++ chk)) =
      some (ident, n, salt, some chk) := by
  obtain ⟨d1, d2, hfmt, hd1, hd2, hval⟩ := pyFmt02d_pair hn
  rw [hfmt]
  show bcrypt.patMatchTail ident (d1 :: d2 :: '$' :: (salt ++ chk)) = _
  cases chk with
  | nil => simp at hc
  | cons c cs =>
      simp only [bcrypt.patMatchTail]
      rw [List.take_left' hs, List.drop_left' hs]
      rw [if_pos (show (isAsciiDigit d1 && isAsciiDigit d2) = true by rw [hd1, hd2]; rfl)]
      rw [if_pos ⟨hs, hsa⟩]
      show (if (c :: cs).length = 31 ∧ (c :: cs).all isBcryptB64Char = true then
          some (ident, (d1.toNat - 48) * 10 + (d2.toNat - 48), salt, some (c :: cs))
        else none) = some (ident, n, salt, some (c :: cs))
      rw [if_pos ⟨hc, hca⟩, hval]

theorem patMatchTail_complete_nochk {ident : List Char} {n : Nat} {salt : List Char}
    (hn : n < 100) (hs : salt.length = 22) (hsa : salt.all isBcryptB64Char = true) :
    bcrypt.patMatchTail ident (bcrypt.pyFmt02d n ++ '$' :: salt) =
      some (ident, n, salt, none) := by
  obtain ⟨d1, d2, hfmt, hd1, hd2, hval⟩ := pyFmt02d_pair hn
  rw [hfmt]
  show bcrypt.patMatchTail ident (d1 :: d2 :: '$' :: salt) = _
  have htake : salt.take 22 = salt := by rw [← hs]; exact List.take_length salt
  have hdrop : salt.drop 22 = [] := by rw [← hs]; exact List.drop_length salt
  simp only [bcrypt.patMatchTail]
  rw [htake, hdrop]
  rw [if_pos (show (isAsciiDigit d1 && isAsciiDigit d2) = true by rw [hd1, hd2]; rfl)]
  rw [if_pos ⟨hs, hsa⟩]
  show some (ident, (d1.toNat - 48) * 10 + (d2.toNat - 48), salt, none) =
    some (ident, n, salt, none)
  rw [hval]

theorem patMatchTail_sound {ident rest : List Char}
    {q : List Char × Nat × List Char × Option (List Char)}
    (hm : bcrypt.patMatchTail ident rest = some q) :
    ∃ d1 d2 body, rest = d1 :: d2 :: '$' :: body ∧ isAsciiDigit d1 = true ∧
      isAsciiDigit d2 = true ∧ (body.take 22).length = 22 ∧
      (body.take 22).all isBcryptB64Char = true ∧
      ((body.drop 22 = [] ∧
          q = (ident, (d1.toNat - 48) * 10 + (d2.toNat - 48), body.take 22, none)) ∨
        (body.drop 22 ≠ [] ∧ (body.drop 22).length = 31 ∧
          (body.drop 22).all isBcryptB64Char = true ∧
          q = (ident, (d1.toNat - 48) * 10 + (d2.toNat - 48), body.take 22,
            some (body.drop 22)))) := by
  unfold bcrypt.patMatchTail at hm
  split at hm
  · rename_i d1 d2 body
    split at hm
    · rename_i hdig
      split at hm
      · rename_i hsalt
        split at hm
        · rename_i heq
          injection hm with hm
          refine ⟨d1, d2, body, rfl, ?_, ?_, hsalt.1, hsalt.2, Or.inl ⟨heq, hm.symm⟩⟩
          · exact (Bool.and_eq_true ..|>.mp hdig).1
          · exact (Bool.and_eq_true ..|>.mp hdig).2
        · rename_i chk heq
          split at hm
          · rename_i hchk
            injection hm with hm
            refine ⟨d1, d2, body, rfl, ?_, ?_, hsalt.1, hsalt.2,
              Or.inr ⟨heq, hchk.1, hchk.2, hm.symm⟩⟩
            · exact (Bool.and_eq_true ..|>.mp hdig).1
            · exact (Bool.and_eq_true ..|>.mp hdig).2
          · exact absurd hm (by simp)
      · exact absurd hm (by simp)
    · exact absurd hm (by simp)
  · exact absurd hm (by simp)

theorem bcrypt_patMatch_sound {h : List Char}
    {q : List Char × Nat × List Char × Option (List Char)}
    (hm : bcrypt.patMatch h = some q) :
    (∃ rest, h = '$' :: '2' :: 'a' :: '$' :: rest ∧
        bcrypt.patMatchTail ['2', 'a'] rest = some q) ∨
      (∃ rest, h = '$' :: '2' :: '$' :: rest ∧
        bcrypt.patMatchTail ['2'] rest = some q) := by
  unfold bcrypt.patMatch at hm
  split at hm
  · exact Or.inl ⟨_, rfl, hm⟩
  · exact Or.inr ⟨_, rfl, hm⟩
  · exact absurd hm (by simp)

theorem patMatchTail_direct_chk {ident : List Char} {d1 d2 : Char} {salt chk : List Char}
    (hd1 : isAsciiDigit d1 = true) (hd2 : isAsciiDigit d2 = true)
    (hs : salt.length = 22) (hsa : salt.all isBcryptB64Char = true)
    (hc : chk.length = 31) (hca : chk.all isBcryptB64Char = true) :
    bcrypt.patMatchTail ident (d1 :: d2 :: '$' :: (salt ++ chk)) =
      some (ident, (d1.toNat - 48) * 10 + (d2.toNat - 48), salt, some chk) := by
  cases chk with
  | nil => simp at hc
  | cons c cs =>
      simp only [bcrypt.patMatchTail]
      rw [List.take_left' hs, List.drop_left' hs]
      rw [if_pos (show (isAsciiDigit d1 && isAsciiDigit d2) = true by rw [hd1, hd2]; rfl)]
      rw [if_pos ⟨hs, hsa⟩]
      show (if (c :: cs).length = 31 ∧ (c :: cs).all isBcryptB64Char = true then
          some (ident, (d1.toNat - 48) * 10 + (d2.toNat - 48), salt, some (c :: cs))
        else none) = some (ident, (d1.toNat - 48) * 10 + (d2.toNat - 48), salt,
          some (c :: cs))
      rw [if_pos ⟨hc, hca⟩]

theorem patMatchTail_direct_nochk {ident : List Char} {d1 d2 : Char} {salt : List Char}
    (hd1 : isAsciiDigit d1 = true) (hd2 : isAsciiDigit d2 = true)
    (hs : salt.length = 22) (hsa : salt.all isBcryptB64Char = true) :
    bcrypt.patMatchTail ident (d1 :: d2 :: '$' :: salt) =
      some (ident, (d1.toNat - 48) * 10 + (d2.toNat - 48), salt, none) := by
  have htake : salt.take 22 = salt := by rw [← hs]; exact List.take_length salt
  have hdrop : salt.drop 22 = [] := by rw [← hs]; exact List.drop_length salt
  simp only [bcrypt.patMatchTail]
  rw [htake, hdrop]
  rw [if_pos (show (isAsciiDigit d1 && isAsciiDigit d2) = true by rw [hd1, hd2]; rfl)]
  rw [if_pos ⟨hs, hsa⟩]

theorem bcrypt_shape_2 (rest : List Char) :
    '$' :: ['2'] ++ '$' :: rest = '$' :: '2' :: '$' :: rest := rfl

theorem bcrypt_shape_2a (rest : List Char) :
    '$' :: ['2', 'a'] ++ '$' :: rest = '$' :: '2' :: 'a' :: '$' :: rest := rfl

theorem bcrypt_from_string_shape {ident : List Char} (rest : List Char)
    (hid : ident = ['2'] ∨ ident = ['2', 'a']) :
    bcrypt.from_string ('$' :: ident ++ '$' :: rest) =
      (match bcrypt.patMatchTail ident rest with
       | none => .error .malformedHash
       | some (ident, n, salt, chk) =>
           match chk with
           | some c =>
               if 4 ≤ n ∧ n ≤ 31 then .ok ⟨ident, n, salt, some c⟩
               else .error .invalidSetting
           | none => .ok ⟨ident, bcrypt.clampRounds n, salt, none⟩) := by
  rcases hid with rfl | rfl
  · rw [bcrypt_shape_2]
    unfold bcrypt.from_string
    rw [if_neg (by simp)]
    rw [bcrypt_patMatch_2]
  · rw [bcrypt_shape_2a]
    unfold bcrypt.from_string
    rw [if_neg (by simp)]
    rw [bcrypt_patMatch_2a]

theorem bcrypt_from_string_complete_strict {ident : List Char} {d1 d2 : Char}
    {salt chk : List Char} (hid : ident = ['2'] ∨ ident = ['2', 'a'])
    (hd1 : isAsciiDigit d1 = true) (hd2 : isAsciiDigit d2 = true)
    (hlo : 4 ≤ (d1.toNat - 48) * 10 + (d2.toNat - 48))
    (hhi : (d1.toNat - 48) * 10 + (d2.toNat - 48) ≤ 31)
    (hs : salt.length = 22) (hsa : salt.all isBcryptB64Char = true)
    (hc : chk.length = 31) (hca : chk.all isBcryptB64Char = true) :
    bcrypt.from_string ('$' :: ident ++ '$' :: (d1 :: d2 :: '$' :: (salt ++ chk))) =
      .ok ⟨ident, (d1.toNat - 48) * 10 + (d2.toNat - 48), salt, some chk⟩ := by
  rw [bcrypt_from_string_shape _ hid,
    patMatchTail_direct_chk hd1 hd2 hs hsa hc hca]
  show (if 4 ≤ (d1.toNat - 48) * 10 + (d2.toNat - 48) ∧
      (d1.toNat - 48) * 10 + (d2.toNat - 48) ≤ 31 then
      (.ok ⟨ident, (d1.toNat - 48) * 10 + (d2.toNat - 48), salt, some chk⟩ :
        Except PassErr BcryptRecord)
    else .error .invalidSetting) = _
  rw [if_pos ⟨hlo, hhi⟩]

theorem bcrypt_from_string_reject_strict {ident : List Char} {d1 d2 : Char}
    {salt chk : List Char} (hid : ident = ['2'] ∨ ident = ['2', 'a'])
    (hd1 : isAsciiDigit d1 = true) (hd2 : isAsciiDigit d2 = true)
    (hout : ¬ (4 ≤ (d1.toNat - 48) * 10 + (d2.toNat - 48) ∧
      (d1.toNat - 48) * 10 + (d2.toNat - 48) ≤ 31))
    (hs : salt.length = 22) (hsa : salt.all isBcryptB64Char = true)
    (hc : chk.length = 31) (hca : chk.all isBcryptB64Char = true) :
    bcrypt.from_string ('$' :: ident ++ '$' :: (d1 :: d2 :: '$' :: (salt ++ chk))) =
      .error .invalidSetting := by
  rw [bcrypt_from_string_shape _ hid,
    patMatchTail_direct_chk hd1 hd2 hs hsa hc hca]
  show (if 4 ≤ (d1.toNat - 48) * 10 + (d2.toNat - 48) ∧
      (d1.toNat - 48) * 10 + (d2.toNat - 48) ≤ 31 then
      (.ok ⟨ident, (d1.toNat - 48) * 10 + (d2.toNat - 48), salt, some chk⟩ :
        Except PassErr BcryptRecord)
    else .error .invalidSetting) = _
  rw [if_neg hout]

theorem bcrypt_from_string_complete_config {ident : List Char} {d1 d2 : Char}
    {salt : List Char} (hid : ident = ['2'] ∨ ident = ['2', 'a'])
    (hd1 : isAsciiDigit d1 = true) (hd2 : isAsciiDigit d2 = true)
    (hs : salt.length = 22) (hsa : salt.all isBcryptB64Char = true) :
    bcrypt.from_string ('$' :: ident ++ '$' :: (d1 :: d2 :: '$' :: salt)) =
      .ok ⟨ident, bcrypt.clampRounds ((d1.toNat - 48) * 10 + (d2.toNat - 48)), salt,
        none⟩ := by
  rw [bcrypt_from_string_shape _ hid, patMatchTail_direct_nochk hd1 hd2 hs hsa]


theorem bcrypt_sound_aux {h : List Char} {r : BcryptRecord} (prefTag rest : List Char)
    (hpre : prefTag = ['2'] ∨ prefTag = ['2', 'a'])
    (hsh : h = '$' :: prefTag ++ '$' :: rest)
    (htail : ∃ ident n salt chk, bcrypt.patMatchTail prefTag rest =
        some (ident, n, salt, chk) ∧
      ((∃ c, chk = some c ∧ 4 ≤ n ∧ n ≤ 31 ∧ r = ⟨ident, n, salt, some c⟩) ∨
        (chk = none ∧ r = ⟨ident, bcrypt.clampRounds n, salt, none⟩))) :
    ∃ d1 d2,
      ((∃ c, r.checksum = some c ∧ bcryptStrictShape h r.ident d1 d2 r.salt c ∧
          r.rounds = (d1.toNat - 48) * 10 + (d2.toNat - 48) ∧ 4 ≤ r.rounds ∧
          r.rounds ≤ 31) ∨
        (r.checksum = none ∧ bcryptConfigShape h r.ident d1 d2 r.salt ∧
          r.rounds = bcrypt.clampRounds ((d1.toNat - 48) * 10 + (d2.toNat - 48)))) := by
  obtain ⟨ident, n, salt, chk, htm, hcase⟩ := htail
  obtain ⟨d1, d2, body, hrest, hd1, hd2, hslen, hsall, hshape⟩ :=
    patMatchTail_sound htm
  refine ⟨d1, d2, ?_⟩
  rcases hshape with ⟨hdrop, hq⟩ | ⟨hne2, hclen, hcall, hq⟩
  · simp only [Prod.mk.injEq] at hq
    obtain ⟨rfl, rfl, rfl, hchk⟩ := hq
    rcases hcase with ⟨c, hc, -, -, hrr⟩ | ⟨hcnone, hrr⟩
    · rw [hchk] at hc
      exact absurd hc (by simp)
    · subst hrr
      refine Or.inr ⟨rfl, ⟨hpre, hd1, hd2, hslen, hsall, ?_⟩, rfl⟩
      rw [hsh, hrest]
      have hb : body = body.take 22 := by
        have hsplit := List.take_append_drop 22 body
        rw [hdrop, List.append_nil] at hsplit
        exact hsplit.symm
      rw [← hb]
  · simp only [Prod.mk.injEq] at hq
    obtain ⟨rfl, rfl, rfl, hchk⟩ := hq
    rcases hcase with ⟨c, hc, hlo, hhi, hrr⟩ | ⟨hcnone, hrr⟩
    · rw [hchk] at hc
      injection hc with hc
      subst hrr
      subst hc
      refine Or.inl ⟨body.drop 22, rfl, ⟨hpre, hd1, hd2, hslen, hsall, hclen, hcall,
        ?_⟩, rfl, hlo, hhi⟩
      rw [hsh, hrest, List.take_append_drop]
    · rw [hchk] at hcnone
      exact absurd hcnone (by simp)

theorem bcrypt_from_string_sound {h : List Char} {r : BcryptRecord}
    (hok : bcrypt.from_string h = .ok r) :
    ∃ d1 d2,
      ((∃ c, r.checksum = some c ∧ bcryptStrictShape h r.ident d1 d2 r.salt c ∧
          r.rounds = (d1.toNat - 48) * 10 + (d2.toNat - 48) ∧ 4 ≤ r.rounds ∧
          r.rounds ≤ 31) ∨
        (r.checksum = none ∧ bcryptConfigShape h r.ident d1 d2 r.salt ∧
          r.rounds = bcrypt.clampRounds ((d1.toNat - 48) * 10 + (d2.toNat - 48)))) := by
  unfold bcrypt.from_string at hok
  split at hok
  · exact absurd hok (by simp)
  · split at hok
    · exact absurd hok (by simp)
    · rename_i ident n salt chk heq
      split at hok
      · rename_i c
        split at hok
        · rename_i hrange
          injection hok with hok
          rcases bcrypt_patMatch_sound heq with ⟨rest, hsh, htail⟩ | ⟨rest, hsh, htail⟩
          · exact bcrypt_sound_aux ['2', 'a'] rest (Or.inr rfl) hsh
              ⟨ident, n, salt, some c, htail,
                Or.inl ⟨c, rfl, hrange.1, hrange.2, hok.symm⟩⟩
          · exact bcrypt_sound_aux ['2'] rest (Or.inl rfl) hsh
              ⟨ident, n, salt, some c, htail,
                Or.inl ⟨c, rfl, hrange.1, hrange.2, hok.symm⟩⟩
        · exact absurd hok (by simp)
      · injection hok with hok
        rcases bcrypt_patMatch_sound heq with ⟨rest, hsh, htail⟩ | ⟨rest, hsh, htail⟩
        · exact bcrypt_sound_aux ['2', 'a'] rest (Or.inr rfl) hsh
            ⟨ident, n, salt, none, htail, Or.inr ⟨rfl, hok.symm⟩⟩
        · exact bcrypt_sound_aux ['2'] rest (Or.inl rfl) hsh
            ⟨ident, n, salt, none, htail, Or.inr ⟨rfl, hok.symm⟩⟩

/-! ### Round-trips -/


theorem except_bind_ok {α β : Type} (a : α) (f : α → Except PassErr β) :
    (Except.ok a >>= f) = f a := rfl

theorem except_bind_error {α β : Type} (e : PassErr) (f : α → Except PassErr β) :
    ((Except.error e : Except PassErr α) >>= f) = .error e := rfl

theorem bcrypt_from_string_to_string {r : BcryptRecord}
    (hid : r.ident = ['2'] ∨ r.ident = ['2', 'a'])
    (hr4 : 4 ≤ r.rounds) (hr31 : r.rounds ≤ 31)
    (hs : r.salt.length = 22) (hsa : r.salt.all isBcryptB64Char = true)
    (hchk : r.checksum = none ∨
      ∃ c, r.checksum = some c ∧ c.length = 31 ∧ c.all isBcryptB64Char = true) :
    bcrypt.from_string (bcrypt.to_string r) = .ok r := by
  rcases hchk with hchk | ⟨c, hchk, hclen, hcall⟩
  · have hts : bcrypt.to_string r =
        '$' :: r.ident ++ '$' :: (bcrypt.pyFmt02d r.rounds ++ '$' :: r.salt) := by
      unfold bcrypt.to_string
      rw [hchk, show (none : Option (List Char)).getD [] = [] from rfl, List.append_nil]
      simp [List.cons_append, List.append_assoc]
    rw [hts, bcrypt_from_string_shape _ hid,
      patMatchTail_complete_nochk (by omega) hs hsa]
    show Except.ok ⟨r.ident, bcrypt.clampRounds r.rounds, r.salt, none⟩ = Except.ok r
    have hclamp : bcrypt.clampRounds r.rounds = r.rounds := by
      unfold bcrypt.clampRounds
      omega
    rw [hclamp, ← hchk]
  · have hts : bcrypt.to_string r =
        '$' :: r.ident ++ '$' :: (bcrypt.pyFmt02d r.rounds ++ '$' :: (r.salt ++ c)) := by
      unfold bcrypt.to_string
      rw [hchk, show (some c).getD ([] : List Char) = c from rfl]
      simp [List.cons_append, List.append_assoc]
    rw [hts, bcrypt_from_string_shape _ hid,
      patMatchTail_complete_chk (by omega) hs hsa hclen hcall]
    show (if 4 ≤ r.rounds ∧ r.rounds ≤ 31 then
        Except.ok ⟨r.ident, r.rounds, r.salt, some c⟩
      else Except.error PassErr.invalidSetting) = Except.ok r
    rw [if_pos ⟨hr4, hr31⟩, ← hchk]

theorem pbkdf2_roundtrip_chk {ident : List Char} (hident : ident ≠ []) {n : Nat}
    {salt chkb : List Nat} (hr1 : 1 ≤ n) (hr2 : n ≤ 2 ^ 32 - 1)
    (hslen : salt.length ≤ 1024) (hsb : ∀ b ∈ salt, b < 256)
    (hcb : ∀ b ∈ chkb, b < 256) (hcne : chkb ≠ []) :
    Pbkdf2DigestHandler.from_string ident
      (Pbkdf2DigestHandler.to_string ident ⟨n, salt, some chkb⟩) =
      .ok ⟨n, salt, some chkb⟩ := by
  have hts : Pbkdf2DigestHandler.to_string ident ⟨n, salt, some chkb⟩ =
      ident ++ (decRepr n ++ '$' :: (ab64Encode salt ++ '$' :: ab64Encode chkb)) := by
    show ident ++ decRepr n ++ '$' :: ab64Encode salt ++ '$' :: ab64Encode chkb = _
    simp [List.append_assoc]
  have hparse : parse_mc3
      (ident ++ (decRepr n ++ '$' :: (ab64Encode salt ++ '$' :: ab64Encode chkb)))
      ident '$' = .ok (decRepr n, ab64Encode salt, ab64Encode chkb) :=
    parse_mc3_three (fun x hx => digit_ne_dollar (decRepr_digits n x hx))
      (fun x hx => ab64Encode_no_dollar x hx) (fun x hx => ab64Encode_no_dollar x hx)
  have hemp : (ident ++ (decRepr n ++ '$' ::
      (ab64Encode salt ++ '$' :: ab64Encode chkb))).isEmpty = false := by
    simp [List.isEmpty_iff, hident]
  have hcfne : (ab64Encode chkb).isEmpty = false := by
    simp [List.isEmpty_iff, ab64Encode_ne_nil hcne]
  rw [hts]
  unfold Pbkdf2DigestHandler.from_string
  simp only [hemp, Bool.false_eq_true, if_false, hparse, except_bind_ok,
    parseDec_decRepr, ne_eq, not_true_eq_false, ite_false,
    ab64Decode_ab64Encode hsb, ab64Decode_ab64Encode hcb, hcfne]
  rw [if_pos ⟨hr1, hr2, hslen⟩]


theorem pbkdf2_roundtrip_config {ident : List Char} (hident : ident ≠ []) {n : Nat}
    {salt : List Nat} (hr1 : 1 ≤ n) (hr2 : n ≤ 2 ^ 32 - 1)
    (hslen : salt.length ≤ 1024) (hsb : ∀ b ∈ salt, b < 256) :
    Pbkdf2DigestHandler.from_string ident
      (Pbkdf2DigestHandler.to_string ident ⟨n, salt, none⟩) = .ok ⟨n, salt, none⟩ := by
  have hts : Pbkdf2DigestHandler.to_string ident ⟨n, salt, none⟩ =
      ident ++ (decRepr n ++ '$' :: ab64Encode salt) := by
    show ident ++ decRepr n ++ '$' :: ab64Encode salt = _
    simp [List.append_assoc]
  have hparse : parse_mc3 (ident ++ (decRepr n ++ '$' :: ab64Encode salt)) ident '$' =
      .ok (decRepr n, ab64Encode salt, []) :=
    parse_mc3_two (fun x hx => digit_ne_dollar (decRepr_digits n x hx))
      (fun x hx => ab64Encode_no_dollar x hx)
  have hemp : (ident ++ (decRepr n ++ '$' :: ab64Encode salt)).isEmpty = false := by
    simp [List.isEmpty_iff, hident]
  rw [hts]
  unfold Pbkdf2DigestHandler.from_string
  simp only [hemp, Bool.false_eq_true, if_false, hparse, except_bind_ok,
    parseDec_decRepr, ne_eq, not_true_eq_false, ite_false,
    ab64Decode_ab64Encode hsb, List.isEmpty_nil, if_true]
  rw [List.take_of_length_le hslen]
  show (Except.ok ⟨clampRoundsLinear 1 (2 ^ 32 - 1) n, salt, none⟩ :
    Except PassErr PbkdfRecord) = _
  have hcl : clampRoundsLinear 1 (2 ^ 32 - 1) n = n := by
    unfold clampRoundsLinear
    omega
  rw [hcl]

theorem grub_roundtrip_chk {n : Nat} {salt chkb : List Nat} (hr1 : 1 ≤ n)
    (hr2 : n ≤ 2 ^ 32 - 1) (hslen : salt.length ≤ 1024)
    (hsb : ∀ b ∈ salt, b < 256) (hcb : ∀ b ∈ chkb, b < 256) (hcne : chkb ≠ []) :
    grub_pbkdf2_sha512.from_string
      (grub_pbkdf2_sha512.to_string ⟨n, salt, some chkb⟩) =
      .ok ⟨n, salt, some chkb⟩ := by
  have hts : grub_pbkdf2_sha512.to_string ⟨n, salt, some chkb⟩ =
      grub_pbkdf2_sha512.ident ++ (decRepr n ++ '.' ::
        ((hexlify salt).map asciiUpper ++ '.' :: (hexlify chkb).map asciiUpper)) := by
    show grub_pbkdf2_sha512.ident ++ decRepr n ++ '.' :: (hexlify salt).map asciiUpper ++
        '.' :: (hexlify chkb).map asciiUpper = _
    simp [List.append_assoc]
  have hparse : parse_mc3 (grub_pbkdf2_sha512.ident ++ (decRepr n ++ '.' ::
      ((hexlify salt).map asciiUpper ++ '.' :: (hexlify chkb).map asciiUpper)))
      grub_pbkdf2_sha512.ident '.' =
      .ok (decRepr n, (hexlify salt).map asciiUpper, (hexlify chkb).map asciiUpper) :=
    parse_mc3_three (fun x hx => digit_ne_dot (decRepr_digits n x hx))
      (map_asciiUpper_hexlify_no_dot hsb) (map_asciiUpper_hexlify_no_dot hcb)
  have hemp : (grub_pbkdf2_sha512.ident ++ (decRepr n ++ '.' ::
      ((hexlify salt).map asciiUpper ++ '.' ::
        (hexlify chkb).map asciiUpper))).isEmpty = false := by
    simp [List.isEmpty_iff, grub_pbkdf2_sha512.ident]
  have hcfne : ((hexlify chkb).map asciiUpper).isEmpty = false := by
    cases chkb with
    | nil => exact absurd rfl hcne
    | cons b bs => rw [hexlify_cons]; rfl
  rw [hts]
  unfold grub_pbkdf2_sha512.from_string
  simp only [hemp, Bool.false_eq_true, if_false, hparse, except_bind_ok,
    parseDec_decRepr, ne_eq, not_true_eq_false, ite_false,
    unhexlify_map_asciiUpper_hexlify hsb, unhexlify_map_asciiUpper_hexlify hcb, hcfne]
  rw [if_pos ⟨hr1, hr2, hslen⟩]

theorem grub_roundtrip_config {n : Nat} {salt : List Nat} (hr1 : 1 ≤ n)
    (hr2 : n ≤ 2 ^ 32 - 1) (hslen : salt.length ≤ 1024)
    (hsb : ∀ b ∈ salt, b < 256) :
    grub_pbkdf2_sha512.from_string (grub_pbkdf2_sha512.to_string ⟨n, salt, none⟩) =
      .ok ⟨n, salt, none⟩ := by
  have hts : grub_pbkdf2_sha512.to_string ⟨n, salt, none⟩ =
      grub_pbkdf2_sha512.ident ++ (decRepr n ++ '.' :: (hexlify salt).map asciiUpper) := by
    show grub_pbkdf2_sha512.ident ++ decRepr n ++
        '.' :: (hexlify salt).map asciiUpper = _
    simp [List.append_assoc]
  have hparse : parse_mc3 (grub_pbkdf2_sha512.ident ++
      (decRepr n ++ '.' :: (hexlify salt).map asciiUpper)) grub_pbkdf2_sha512.ident '.' =
      .ok (decRepr n, (hexlify salt).map asciiUpper, []) :=
    parse_mc3_two (fun x hx => digit_ne_dot (decRepr_digits n x hx))
      (map_asciiUpper_hexlify_no_dot hsb)
  have hemp : (grub_pbkdf2_sha512.ident ++
      (decRepr n ++ '.' :: (hexlify salt).map asciiUpper)).isEmpty = false := by
    simp [List.isEmpty_iff, grub_pbkdf2_sha512.ident]
  rw [hts]
  unfold grub_pbkdf2_sha512.from_string
  simp only [hemp, Bool.false_eq_true, if_false, hparse, except_bind_ok,
    parseDec_decRepr, ne_eq, not_true_eq_false, ite_false,
    unhexlify_map_asciiUpper_hexlify hsb, List.isEmpty_nil, if_true]
  rw [List.take_of_length_le hslen]
  show (Except.ok ⟨clampRoundsLinear 1 (2 ^ 32 - 1) n, salt, none⟩ :
    Except PassErr PbkdfRecord) = _
  have hcl : clampRoundsLinear 1 (2 ^ 32 - 1) n = n := by
    unfold clampRoundsLinear
    omega
  rw [hcl]

theorem mssql2005_roundtrip {salt chk : List Nat} (hs : salt.length = 4)
    (hc : chk.length = 20) (hsb : ∀ b ∈ salt, b < 256) (hcb : ∀ b ∈ chk, b < 256) :
    mssql2005.from_string (mssql2005.to_string ⟨salt, some chk⟩) =
      .ok ⟨salt, some chk⟩ := by
  have hts : mssql2005.to_string ⟨salt, some chk⟩ =
      mssqlIdentPrefix ++ (hexlify (salt ++ chk)).map asciiUpper := rfl
  have hcount : 6 + 2 * (salt ++ chk).length = 54 := by
    simp [List.length_append, hs, hc]
  have hparse := @_parse_mssql_roundtrip (salt ++ chk)
    (fun b hb => by rcases List.mem_append.mp hb with h | h
                    exacts [hsb b h, hcb b h])
  rw [hcount] at hparse
  rw [hts]
  unfold mssql2005.from_string
  rw [hparse, except_bind_ok]
  show (Except.ok ⟨(salt ++ chk).take 4, some ((salt ++ chk).drop 4)⟩ :
    Except PassErr MssqlRecord) = _
  rw [List.take_left' hs, List.drop_left' hs]

theorem mssql2000_roundtrip {salt chk : List Nat} (hs : salt.length = 4)
    (hc : chk.length = 40) (hsb : ∀ b ∈ salt, b < 256) (hcb : ∀ b ∈ chk, b < 256) :
    mssql2000.from_string (mssql2000.to_string ⟨salt, some chk⟩) =
      .ok ⟨salt, some chk⟩ := by
  have hts : mssql2000.to_string ⟨salt, some chk⟩ =
      mssqlIdentPrefix ++ (hexlify (salt ++ chk)).map asciiUpper := rfl
  have hcount : 6 + 2 * (salt ++ chk).length = 94 := by
    simp [List.length_append, hs, hc]
  have hparse := @_parse_mssql_roundtrip (salt ++ chk)
    (fun b hb => by rcases List.mem_append.mp hb with h | h
                    exacts [hsb b h, hcb b h])
  rw [hcount] at hparse
  rw [hts]
  unfold mssql2000.from_string
  rw [hparse, except_bind_ok]
  show (Except.ok ⟨(salt ++ chk).take 4, some ((salt ++ chk).drop 4)⟩ :
    Except PassErr MssqlRecord) = _
  rw [List.take_left' hs, List.drop_left' hs]


theorem unhexlify_total : ∀ s : List Char, s.length % 2 = 0 →
    (∀ c ∈ s, (hexVal c).isSome = true) → ∃ data, unhexlify s = some data := by
  intro s
  induction s using unhexlify.induct with
  | case1 => exact fun _ _ => ⟨[], rfl⟩
  | case2 c => intro hlen _; simp at hlen
  | case3 c1 c2 rest ih =>
      intro hlen hhex
      obtain ⟨v1, hv1⟩ := Option.isSome_iff_exists.mp (hhex c1 (by simp))
      obtain ⟨v2, hv2⟩ := Option.isSome_iff_exists.mp (hhex c2 (by simp))
      obtain ⟨tail, ht⟩ := ih (by simp only [List.length_cons] at hlen; omega)
        (fun c hc => hhex c (by simp [hc]))
      refine ⟨(v1 * 16 + v2) :: tail, ?_⟩
      rw [unhexlify, hv1, hv2, ht]
      rfl

/-! ## Claims -/

/-- C9: each handler's `identify` is a total boolean structural check —
bcrypt tests non-emptiness and the `$2$`/`$2a$` prefix, mssql2005 tests
length 54 and the `0x0100` prefix, postgres_md5 tests the
`^md5[0-9a-f]{32}$` pattern — and a true `identify` does not require a
full successful parse, witnessed by a 54-char `0x0100`-prefixed string of
non-hex characters that `identify` accepts and `from_string` rejects. -/
theorem C9_identify_structural :
    (∀ h : List Char, bcrypt.identify h = true ↔
      h ≠ [] ∧ (h.take 3 = ['$', '2', '$'] ∨ h.take 4 = ['$', '2', 'a', '$'])) ∧
    (∀ h : List Char, mssql2005.identify h = true ↔
      h.length = 54 ∧ h.take 6 = ['0', 'x', '0', '1', '0', '0']) ∧
    (∀ h : List Char, mssql2000.identify h = true ↔
      h.length = 94 ∧ h.take 6 = ['0', 'x', '0', '1', '0', '0']) ∧
    (∀ h : List Char, postgres_md5.identify h = true ↔
      h.take 3 = ['m', 'd', '5'] ∧ (h.drop 3).length = 32 ∧
        (h.drop 3).all isLowerHexChar = true) ∧
    (mssql2005.identify (mssqlIdentPrefix ++ List.replicate 48 'z') = true ∧
      mssql2005.from_string (mssqlIdentPrefix ++ List.replicate 48 'z') =
        .error .malformedHash) := by
  refine ⟨?_, ?_, ?_, ?_, by decide, by rfl⟩
  · intro h
    unfold bcrypt.identify
    simp only [Bool.and_eq_true, Bool.or_eq_true, Bool.not_eq_true',
      List.isEmpty_eq_false, List.isPrefixOf_iff_prefix, List.prefix_iff_eq_take]
    constructor
    · rintro ⟨hne, hpre | hpre⟩
      · exact ⟨hne, Or.inl hpre.symm⟩
      · exact ⟨hne, Or.inr hpre.symm⟩
    · rintro ⟨hne, hpre | hpre⟩
      · exact ⟨hne, Or.inl hpre.symm⟩
      · exact ⟨hne, Or.inr hpre.symm⟩
  · intro h
    unfold mssql2005.identify _ident_mssql
    simp only [Bool.and_eq_true, beq_iff_eq, List.isPrefixOf_iff_prefix,
      List.prefix_iff_eq_take]
    constructor
    · rintro ⟨hl, hp⟩
      exact ⟨hl, hp.symm⟩
    · rintro ⟨hl, hp⟩
      exact ⟨hl, hp.symm⟩
  · intro h
    unfold mssql2000.identify _ident_mssql
    simp only [Bool.and_eq_true, beq_iff_eq, List.isPrefixOf_iff_prefix,
      List.prefix_iff_eq_take]
    constructor
    · rintro ⟨hl, hp⟩
      exact ⟨hl, hp.symm⟩
    · rintro ⟨hl, hp⟩
      exact ⟨hl, hp.symm⟩
  · intro h
    unfold postgres_md5.identify postgres_md5.patMatch
    simp only [Bool.and_eq_true, beq_iff_eq, Bool.not_eq_true',
      List.isEmpty_eq_false]
    constructor
    · rintro ⟨-, ⟨hp, hl⟩, ha⟩
      exact ⟨hp, hl, ha⟩
    · rintro ⟨hp, hl, ha⟩
      refine ⟨?_, ⟨hp, hl⟩, ha⟩
      intro hnil
      rw [hnil] at hp
      simp at hp

/-- C8: after parsing, `mssql2000.verify` fails with `MissingDigestError`
on every record whose checksum is absent (for any secret and any digest
primitives), and `verify` is exactly `from_string` followed by that
checked comparison. -/
theorem C8_verify_missing_digest (sha1 : List Nat → List Nat)
    (enc16 : List Char → List Nat) (upper : List Char → List Char)
    (secret : List Char) (r : MssqlRecord) :
    (r.checksum = none →
      mssql2000.verifyParsed sha1 enc16 upper secret r = .error .missingDigest) ∧
    (∀ hash, mssql2000.verify sha1 enc16 upper secret hash =
      mssql2000.from_string hash >>= mssql2000.verifyParsed sha1 enc16 upper secret) := by
  constructor
  · intro hchk
    unfold mssql2000.verifyParsed
    rw [hchk]
  · intro hash
    rfl

/-- Witness for C8 at a concrete config record and hash. -/
theorem C8_witness :
    (⟨[1, 2, 3, 4], none⟩ : MssqlRecord).checksum = none ∧
      mssql2000.verifyParsed (fun _ => []) (fun s => s.map Char.toNat) (fun s => s)
        ['a'] ⟨[1, 2, 3, 4], none⟩ = .error .missingDigest :=
  ⟨rfl, (C8_verify_missing_digest (fun _ => []) (fun s => s.map Char.toNat)
    (fun s => s) ['a'] ⟨[1, 2, 3, 4], none⟩).1 rfl⟩

/-- C6: every `"0x0100"`-prefixed string of 8 + 40 hex characters (either
case) parses on mssql2005 into the 4-byte salt and 20-byte checksum, and
`to_string` of that record reproduces the identical string with the hex
digits upper-cased. -/
theorem C6_mssql2005_parse_format (saltHex chkHex : List Char)
    (hsl : saltHex.length = 8) (hcl : chkHex.length = 40)
    (hshx : ∀ c ∈ saltHex, (hexVal c).isSome = true)
    (hchx : ∀ c ∈ chkHex, (hexVal c).isSome = true) :
    ∃ data : List Nat,
      unhexlify (saltHex ++ chkHex) = some data ∧
      mssql2005.from_string (mssqlIdentPrefix ++ (saltHex ++ chkHex)) =
        .ok ⟨data.take 4, some (data.drop 4)⟩ ∧
      (data.take 4).length = 4 ∧ (data.drop 4).length = 20 ∧
      mssql2005.to_string ⟨data.take 4, some (data.drop 4)⟩ =
        mssqlIdentPrefix ++ (saltHex ++ chkHex).map asciiUpper := by
  obtain ⟨data, hdata⟩ := unhexlify_total (saltHex ++ chkHex)
    (by simp [hsl, hcl])
    (fun c hc => by
      rcases List.mem_append.mp hc with h | h
      exacts [hshx c h, hchx c h])
  obtain ⟨hmap, hlen2, hbnd⟩ := unhexlify_sound hdata
  have hdl : data.length = 24 := by
    rw [List.length_append, hsl, hcl] at hlen2
    omega
  have hp : _parse_mssql (mssqlIdentPrefix ++ (saltHex ++ chkHex)) 54 = .ok data := by
    unfold _parse_mssql
    rw [if_pos ⟨by simp [mssqlIdentPrefix, hsl, hcl],
      List.isPrefixOf_iff_prefix.mpr (List.prefix_append ..)⟩]
    rw [List.drop_left' (show mssqlIdentPrefix.length = 6 from rfl), hdata]
  refine ⟨data, hdata, ?_, ?_, ?_, ?_⟩
  · unfold mssql2005.from_string
    rw [hp, except_bind_ok]
  · rw [List.length_take, hdl]
    omega
  · rw [List.length_drop, hdl]
  · unfold mssql2005.to_string
    show mssqlIdentPrefix ++ (hexlify (data.take 4 ++ data.drop 4)).map asciiUpper = _
    rw [List.take_append_drop, hmap, List.map_append]

/-- C4: postgres_md5 `encrypt` fails on a missing user and otherwise
returns exactly `"md5"` + the 32 lower-case hex chars of
`md5(secret ‖ user)`; `verify` returns true exactly on that string. -/
theorem C4_postgres_encrypt_verify (md5 : List Nat → List Nat)
    (utf8 : List Char → List Nat) (secret user : List Char) :
    (user = [] → postgres_md5.encrypt md5 utf8 secret user = .error .valueError) ∧
    (user ≠ [] → postgres_md5.encrypt md5 utf8 secret user =
      .ok (['m', 'd', '5'] ++ hexlify (md5 (utf8 secret ++ utf8 user)))) ∧
    ((md5 (utf8 secret ++ utf8 user)).length = 16 →
      (hexlify (md5 (utf8 secret ++ utf8 user))).length = 32) ∧
    ((∀ b ∈ md5 (utf8 secret ++ utf8 user), b < 256) →
      (hexlify (md5 (utf8 secret ++ utf8 user))).all isLowerHexChar = true) ∧
    (user ≠ [] → (md5 (utf8 secret ++ utf8 user)).length = 16 →
      (∀ b ∈ md5 (utf8 secret ++ utf8 user), b < 256) →
      ∀ hash, (postgres_md5.verify md5 utf8 secret hash user = .ok true ↔
        hash = ['m', 'd', '5'] ++ hexlify (md5 (utf8 secret ++ utf8 user)))) := by
  refine ⟨?_, ?_, ?_, ?_, ?_⟩
  · intro huser
    unfold postgres_md5.encrypt
    rw [huser]
    rfl
  · intro huser
    unfold postgres_md5.encrypt
    rw [if_neg (by simp [huser])]
  · intro h16
    rw [length_hexlify, h16]
  · exact hexlify_all_lower
  · intro huser h16 hbnd hash
    have hid : postgres_md5.identify
        (['m', 'd', '5'] ++ hexlify (md5 (utf8 secret ++ utf8 user))) = true := by
      unfold postgres_md5.identify postgres_md5.patMatch
      rw [List.take_left' (show (['m', 'd', '5'] : List Char).length = 3 from rfl),
        List.drop_left' (show (['m', 'd', '5'] : List Char).length = 3 from rfl)]
      simp [length_hexlify, h16, hexlify_all_lower hbnd]
    have hid2 : postgres_md5.identify
        ('m' :: 'd' :: '5' :: hexlify (md5 (utf8 secret ++ utf8 user))) = true := hid
    have henc : postgres_md5.encrypt md5 utf8 secret user =
        .ok (['m', 'd', '5'] ++ hexlify (md5 (utf8 secret ++ utf8 user))) := by
      unfold postgres_md5.encrypt
      rw [if_neg (by simp [huser])]
    constructor
    · intro hok
      unfold postgres_md5.verify at hok
      split at hok
      · exact absurd hok (by simp)
      · unfold postgres_md5.genhash at hok
        split at hok
        · rw [except_bind_error] at hok
          exact absurd hok (by simp)
        · rw [henc, except_bind_ok] at hok
          injection hok with hok
          exact (beq_iff_eq ..).mp hok
    · intro heq
      subst heq
      unfold postgres_md5.verify
      rw [if_neg (fun hc => Bool.noConfusion hc)]
      unfold postgres_md5.genhash
      rw [if_neg (by simp [hid2]), henc, except_bind_ok]
      simp

/-- Witness for C6 at a concrete mixed-case hash body. -/
theorem C6_witness :
    ∃ data : List Nat,
      unhexlify (['0', '1', '2', '3', 'a', 'b', 'C', 'D'] ++ List.replicate 40 'f') =
        some data ∧
      mssql2005.from_string (mssqlIdentPrefix ++
        (['0', '1', '2', '3', 'a', 'b', 'C', 'D'] ++ List.replicate 40 'f')) =
        .ok ⟨data.take 4, some (data.drop 4)⟩ ∧
      (data.take 4).length = 4 ∧ (data.drop 4).length = 20 ∧
      mssql2005.to_string ⟨data.take 4, some (data.drop 4)⟩ =
        mssqlIdentPrefix ++
          (['0', '1', '2', '3', 'a', 'b', 'C', 'D'] ++
            List.replicate 40 'f').map asciiUpper :=
  C6_mssql2005_parse_format _ _ (by decide) (by decide) (by decide) (by decide)

/-- Witness for C4 with a concrete stand-in digest, secret and user. -/
theorem C4_witness :
    postgres_md5.encrypt (fun l => (l ++ List.replicate 16 0).take 16)
      (fun s => s.map Char.toNat) ['a'] [] = .error .valueError ∧
    postgres_md5.encrypt (fun l => (l ++ List.replicate 16 0).take 16)
      (fun s => s.map Char.toNat) ['a'] ['u'] =
      .ok (['m', 'd', '5'] ++ hexlify ((fun l => (l ++ List.replicate 16 0).take 16)
        ((fun s : List Char => s.map Char.toNat) ['a'] ++
          (fun s : List Char => s.map Char.toNat) ['u']))) ∧
    ∀ hash, postgres_md5.verify (fun l => (l ++ List.replicate 16 0).take 16)
        (fun s => s.map Char.toNat) ['a'] hash ['u'] = .ok true ↔
      hash = ['m', 'd', '5'] ++ hexlify ((fun l => (l ++ List.replicate 16 0).take 16)
        ((fun s : List Char => s.map Char.toNat) ['a'] ++
          (fun s : List Char => s.map Char.toNat) ['u'])) :=
  ⟨(C4_postgres_encrypt_verify _ _ ['a'] []).1 rfl,
   (C4_postgres_encrypt_verify _ _ ['a'] ['u']).2.1 (by decide),
   (C4_postgres_encrypt_verify _ _ ['a'] ['u']).2.2.2.2 (by decide) (by decide)
     (by decide)⟩

theorem consteq_eq_false_iff {a b : List Nat} : consteq a b = false ↔ a ≠ b := by
  rw [← Bool.not_eq_true, consteq_eq_true_iff]

theorem hexlify_inj {d d2 : List Nat} (h1 : ∀ b ∈ d, b < 256) (h2 : ∀ b ∈ d2, b < 256)
    (he : hexlify d = hexlify d2) : d = d2 := by
  have hu1 := unhexlify_hexlify h1
  have hu2 := unhexlify_hexlify h2
  rw [he, hu2] at hu1
  injection hu1 with hu1
  exact hu1.symm

theorem postgres_identify_canonical {d : List Nat} (h16 : d.length = 16)
    (hbnd : ∀ b ∈ d, b < 256) :
    postgres_md5.identify (['m', 'd', '5'] ++ hexlify d) = true := by
  unfold postgres_md5.identify postgres_md5.patMatch
  rw [List.take_left' (show (['m', 'd', '5'] : List Char).length = 3 from rfl),
    List.drop_left' (show (['m', 'd', '5'] : List Char).length = 3 from rfl)]
  simp [length_hexlify, h16, hexlify_all_lower hbnd]

theorem postgres_verify_run (md5 : List Nat → List Nat) (utf8 : List Char → List Nat)
    (s2 hash user : List Char) (hne : hash ≠ [])
    (hid : postgres_md5.identify hash = true) (huser : user ≠ []) :
    postgres_md5.verify md5 utf8 s2 hash user =
      .ok (hash == ['m', 'd', '5'] ++ hexlify (md5 (utf8 s2 ++ utf8 user))) := by
  unfold postgres_md5.verify
  rw [if_neg (by simp [hne])]
  unfold postgres_md5.genhash
  rw [if_neg (by simp [hid])]
  unfold postgres_md5.encrypt
  rw [if_neg (by simp [huser]), except_bind_ok]

/-- C1: for each handler whose checksum computation is in the source
(postgres_md5, mssql2005, mssql2000), a successful `encrypt` verifies
against the same secret, and fails against `secret ++ "x"` whenever the
external digest separates the two inputs (the digest, the text encoders
and upper-casing are external primitives, passed in; digest length/byte
bounds and the separation are hypotheses discharged in the witness). -/
theorem C1_encrypt_verify (md5 sha1 : List Nat → List Nat)
    (utf8 enc16 : List Char → List Nat) (upper : List Char → List Char)
    (secret user : List Char) (salt : List Nat) :
    (user ≠ [] → (md5 (utf8 secret ++ utf8 user)).length = 16 →
      (∀ b ∈ md5 (utf8 secret ++ utf8 user), b < 256) →
      (∀ b ∈ md5 (utf8 (secret ++ ['x']) ++ utf8 user), b < 256) →
      md5 (utf8 (secret ++ ['x']) ++ utf8 user) ≠ md5 (utf8 secret ++ utf8 user) →
      ∃ h, postgres_md5.encrypt md5 utf8 secret user = .ok h ∧
        postgres_md5.verify md5 utf8 secret h user = .ok true ∧
        postgres_md5.verify md5 utf8 (secret ++ ['x']) h user = .ok false) ∧
    (salt.length = 4 → (∀ b ∈ salt, b < 256) →
      (sha1 (enc16 secret ++ salt)).length = 20 →
      (∀ b ∈ sha1 (enc16 secret ++ salt), b < 256) →
      sha1 (enc16 (secret ++ ['x']) ++ salt) ≠ sha1 (enc16 secret ++ salt) →
      ∃ h, mssql2005.encrypt sha1 enc16 secret salt = .ok h ∧
        mssql2005.verify sha1 enc16 secret h = .ok true ∧
        mssql2005.verify sha1 enc16 (secret ++ ['x']) h = .ok false) ∧
    (salt.length = 4 → (∀ b ∈ salt, b < 256) →
      (sha1 (enc16 secret ++ salt)).length = 20 →
      (∀ b ∈ sha1 (enc16 secret ++ salt), b < 256) →
      (sha1 (enc16 (upper secret) ++ salt)).length = 20 →
      (∀ b ∈ sha1 (enc16 (upper secret) ++ salt), b < 256) →
      sha1 (enc16 (upper (secret ++ ['x'])) ++ salt) ≠
        sha1 (enc16 (upper secret) ++ salt) →
      ∃ h, mssql2000.encrypt sha1 enc16 upper secret salt = .ok h ∧
        mssql2000.verify sha1 enc16 upper secret h = .ok true ∧
        mssql2000.verify sha1 enc16 upper (secret ++ ['x']) h = .ok false) := by
  refine ⟨?_, ?_, ?_⟩
  · intro huser h16 hbnd hbnd2 hneq
    refine ⟨['m', 'd', '5'] ++ hexlify (md5 (utf8 secret ++ utf8 user)), ?_, ?_, ?_⟩
    · unfold postgres_md5.encrypt
      rw [if_neg (by simp [huser])]
    · rw [postgres_verify_run md5 utf8 secret _ user (by simp)
        (postgres_identify_canonical h16 hbnd) huser]
      simp
    · rw [postgres_verify_run md5 utf8 (secret ++ ['x']) _ user (by simp)
        (postgres_identify_canonical h16 hbnd) huser]
      congr 1
      rw [beq_eq_false_iff_ne]
      intro hc
      have hx : hexlify (md5 (utf8 secret ++ utf8 user)) =
          hexlify (md5 (utf8 (secret ++ ['x']) ++ utf8 user)) := by
        have := List.append_cancel_left hc
        exact this
      exact hneq (hexlify_inj hbnd2 hbnd (hx.symm))
  · intro hs4 hsb h20 hcb hneq
    refine ⟨mssql2005.to_string ⟨salt, some (sha1 (enc16 secret ++ salt))⟩, ?_, ?_, ?_⟩
    · unfold mssql2005.encrypt
      rw [if_pos hs4]
      rfl
    · unfold mssql2005.verify
      rw [mssql2005_roundtrip hs4 h20 hsb hcb, except_bind_ok]
      show Except.ok (consteq (mssql2005._calc_checksum sha1 enc16 secret salt)
        (sha1 (enc16 secret ++ salt))) = _
      rw [show mssql2005._calc_checksum sha1 enc16 secret salt =
        sha1 (enc16 secret ++ salt) from rfl]
      rw [consteq_eq_true_iff.mpr rfl]
    · unfold mssql2005.verify
      rw [mssql2005_roundtrip hs4 h20 hsb hcb, except_bind_ok]
      show Except.ok (consteq (mssql2005._calc_checksum sha1 enc16 (secret ++ ['x'])
        salt) (sha1 (enc16 secret ++ salt))) = _
      rw [show mssql2005._calc_checksum sha1 enc16 (secret ++ ['x']) salt =
        sha1 (enc16 (secret ++ ['x']) ++ salt) from rfl]
      rw [consteq_eq_false_iff.mpr hneq]
  · intro hs4 hsb h20a hbnda h20b hbndb hneq
    have hchk : (mssql2000._calc_checksum sha1 enc16 upper secret salt).length = 40 := by
      show (sha1 (enc16 secret ++ salt) ++ sha1 (enc16 (upper secret) ++ salt)).length = 40
      rw [List.length_append, h20a, h20b]
    have hbnds : ∀ b ∈ mssql2000._calc_checksum sha1 enc16 upper secret salt, b < 256 := by
      intro b hb
      rcases List.mem_append.mp hb with h | h
      exacts [hbnda b h, hbndb b h]
    have hdrop : (mssql2000._calc_checksum sha1 enc16 upper secret salt).drop 20 =
        sha1 (enc16 (upper secret) ++ salt) := by
      show (sha1 (enc16 secret ++ salt) ++ sha1 (enc16 (upper secret) ++ salt)).drop 20 = _
      rw [List.drop_left' h20a]
    refine ⟨mssql2000.to_string ⟨salt,
      some (mssql2000._calc_checksum sha1 enc16 upper secret salt)⟩, ?_, ?_, ?_⟩
    · unfold mssql2000.encrypt
      rw [if_pos hs4]
    · unfold mssql2000.verify
      rw [mssql2000_roundtrip hs4 hchk hsb hbnds, except_bind_ok]
      show Except.ok (consteq (_raw_mssql sha1 enc16 (upper secret) salt)
        ((mssql2000._calc_checksum sha1 enc16 upper secret salt).drop 20)) = _
      rw [hdrop, show _raw_mssql sha1 enc16 (upper secret) salt =
        sha1 (enc16 (upper secret) ++ salt) from rfl, consteq_eq_true_iff.mpr rfl]
    · unfold mssql2000.verify
      rw [mssql2000_roundtrip hs4 hchk hsb hbnds, except_bind_ok]
      show Except.ok (consteq (_raw_mssql sha1 enc16 (upper (secret ++ ['x'])) salt)
        ((mssql2000._calc_checksum sha1 enc16 upper secret salt).drop 20)) = _
      rw [hdrop, show _raw_mssql sha1 enc16 (upper (secret ++ ['x'])) salt =
        sha1 (enc16 (upper (secret ++ ['x'])) ++ salt) from rfl,
        consteq_eq_false_iff.mpr hneq]



set_option maxHeartbeats 2000000 in
/-- Witness for C1 with concrete stand-in primitives and inputs. -/
theorem C1_witness :
    (∃ h, postgres_md5.encrypt (fun l => (l ++ List.replicate 16 0).take 16)
        (fun s => s.map Char.toNat) ['a'] ['u'] = .ok h ∧
      postgres_md5.verify (fun l => (l ++ List.replicate 16 0).take 16)
        (fun s => s.map Char.toNat) ['a'] h ['u'] = .ok true ∧
      postgres_md5.verify (fun l => (l ++ List.replicate 16 0).take 16)
        (fun s => s.map Char.toNat) (['a'] ++ ['x']) h ['u'] = .ok false) ∧
    (∃ h, mssql2005.encrypt (fun l => (l ++ List.replicate 20 0).take 20)
        (fun s => s.map Char.toNat) ['a'] [1, 2, 3, 4] = .ok h ∧
      mssql2005.verify (fun l => (l ++ List.replicate 20 0).take 20)
        (fun s => s.map Char.toNat) ['a'] h = .ok true ∧
      mssql2005.verify (fun l => (l ++ List.replicate 20 0).take 20)
        (fun s => s.map Char.toNat) (['a'] ++ ['x']) h = .ok false) ∧
    (∃ h, mssql2000.encrypt (fun l => (l ++ List.replicate 20 0).take 20)
        (fun s => s.map Char.toNat) (fun s => s) ['a'] [1, 2, 3, 4] = .ok h ∧
      mssql2000.verify (fun l => (l ++ List.replicate 20 0).take 20)
        (fun s => s.map Char.toNat) (fun s => s) ['a'] h = .ok true ∧
      mssql2000.verify (fun l => (l ++ List.replicate 20 0).take 20)
        (fun s => s.map Char.toNat) (fun s => s) (['a'] ++ ['x']) h = .ok false) := by
  have h1 :=
    (C1_encrypt_verify (fun l => (l ++ List.replicate 16 0).take 16)
      (fun l => (l ++ List.replicate 20 0).take 20) (fun s => s.map Char.toNat)
      (fun s => s.map Char.toNat) (fun s => s) ['a'] ['u'] [1, 2, 3, 4]).1
      (by decide) (by decide) (by decide) (by decide) (by decide)
  have h2 :=
    (C1_encrypt_verify (fun l => (l ++ List.replicate 16 0).take 16)
      (fun l => (l ++ List.replicate 20 0).take 20) (fun s => s.map Char.toNat)
      (fun s => s.map Char.toNat) (fun s => s) ['a'] ['u'] [1, 2, 3, 4]).2.1
      (by decide) (by decide) (by decide) (by decide) (by decide)
  have h3 :=
    (C1_encrypt_verify (fun l => (l ++ List.replicate 16 0).take 16)
      (fun l => (l ++ List.replicate 20 0).take 20) (fun s => s.map Char.toNat)
      (fun s => s.map Char.toNat) (fun s => s) ['a'] ['u'] [1, 2, 3, 4]).2.2
      (by decide) (by decide) (by decide) (by decide) (by decide) (by decide)
      (by decide)
  exact ⟨h1, h2, h3⟩

/-- C10: `mssql2000.verify` compares the recomputed upper-case digest
only against the second 20-byte half of the stored checksum — its result
is unchanged when the first half is replaced — so any secret whose
upper-cased encoding matches the original's verifies against a hash
produced by `_calc_checksum` (which stores both halves). -/
theorem C10_mssql2000_upper_half (sha1 : List Nat → List Nat)
    (enc16 : List Char → List Nat) (upper : List Char → List Char)
    (s t : List Char) (salt : List Nat) :
    (∀ (salt2 chk1 chk1' chk2 : List Nat), chk1.length = 20 → chk1'.length = 20 →
      mssql2000.verifyParsed sha1 enc16 upper s ⟨salt2, some (chk1 ++ chk2)⟩ =
        mssql2000.verifyParsed sha1 enc16 upper s ⟨salt2, some (chk1' ++ chk2)⟩) ∧
    (salt.length = 4 → (∀ b ∈ salt, b < 256) →
      (sha1 (enc16 t ++ salt)).length = 20 →
      (∀ b ∈ sha1 (enc16 t ++ salt), b < 256) →
      (sha1 (enc16 (upper t) ++ salt)).length = 20 →
      (∀ b ∈ sha1 (enc16 (upper t) ++ salt), b < 256) →
      enc16 (upper s) = enc16 (upper t) →
      mssql2000.verify sha1 enc16 upper s (mssql2000.to_string
        ⟨salt, some (mssql2000._calc_checksum sha1 enc16 upper t salt)⟩) = .ok true) := by
  constructor
  · intro salt2 chk1 chk1' chk2 h1 h1'
    show Except.ok (consteq (_raw_mssql sha1 enc16 (upper s) salt2)
        ((chk1 ++ chk2).drop 20)) =
      Except.ok (consteq (_raw_mssql sha1 enc16 (upper s) salt2)
        ((chk1' ++ chk2).drop 20))
    rw [List.drop_left' h1, List.drop_left' h1']
  · intro hs4 hsb h20a hbnda h20b hbndb hupper
    have hchk : (mssql2000._calc_checksum sha1 enc16 upper t salt).length = 40 := by
      show (sha1 (enc16 t ++ salt) ++ sha1 (enc16 (upper t) ++ salt)).length = 40
      rw [List.length_append, h20a, h20b]
    have hbnds : ∀ b ∈ mssql2000._calc_checksum sha1 enc16 upper t salt, b < 256 := by
      intro b hb
      rcases List.mem_append.mp hb with h | h
      exacts [hbnda b h, hbndb b h]
    have hdrop : (mssql2000._calc_checksum sha1 enc16 upper t salt).drop 20 =
        sha1 (enc16 (upper t) ++ salt) := by
      show (sha1 (enc16 t ++ salt) ++ sha1 (enc16 (upper t) ++ salt)).drop 20 = _
      rw [List.drop_left' h20a]
    unfold mssql2000.verify
    rw [mssql2000_roundtrip hs4 hchk hsb hbnds, except_bind_ok]
    show Except.ok (consteq (_raw_mssql sha1 enc16 (upper s) salt)
      ((mssql2000._calc_checksum sha1 enc16 upper t salt).drop 20)) = _
    rw [hdrop, show _raw_mssql sha1 enc16 (upper s) salt =
      sha1 (enc16 (upper s) ++ salt) from rfl, hupper,
      consteq_eq_true_iff.mpr rfl]

set_option maxHeartbeats 2000000 in
/-- Witness for C10: a secret that differs from the original but has the
same image under the (stand-in) upper-caser verifies successfully. -/
theorem C10_witness :
    (['b'] : List Char) ≠ ['a'] ∧
    (fun s : List Char => s.map Char.toNat) ((fun _ : List Char => ['Z']) ['b']) =
      (fun s : List Char => s.map Char.toNat) ((fun _ : List Char => ['Z']) ['a']) ∧
    mssql2000.verify (fun l => (l ++ List.replicate 20 0).take 20)
      (fun s => s.map Char.toNat) (fun _ => ['Z']) ['b'] (mssql2000.to_string
        ⟨[1, 2, 3, 4], some (mssql2000._calc_checksum
          (fun l => (l ++ List.replicate 20 0).take 20)
          (fun s => s.map Char.toNat) (fun _ => ['Z']) ['a'] [1, 2, 3, 4])⟩) =
      .ok true := by
  have h3 :=
    (C10_mssql2000_upper_half (fun l => (l ++ List.replicate 20 0).take 20)
      (fun s => s.map Char.toNat) (fun _ => ['Z']) ['b'] ['a'] [1, 2, 3, 4]).2
      (by decide) (by decide) (by decide) (by decide) (by decide) (by decide)
      (by decide)
  exact ⟨by decide, by decide, h3⟩

theorem parseDec_digits {s : List Char} {n : Nat} (h : parseDec s = some n) :
    ∀ c ∈ s, isAsciiDigit c = true := by
  unfold parseDec at h
  split at h
  · exact absurd h (by simp)
  · rename_i hcond
    simp only [Bool.or_eq_true, Bool.not_eq_true', not_or] at hcond
    intro c hc
    cases hall : List.all s isAsciiDigit with
    | false => exact absurd hall hcond.2
    | true => exact List.all_eq_true.mp hall c hc

/-- C2: for every record producible by the handler — bcrypt (with or
without checksum), the pbkdf2_sha1/sha256/sha512 family, grub, mssql2005 —
`from_string (to_string r)` recovers the record exactly; casing
normalization (hex upper-cased on output for grub and mssql2005) is
absorbed by the case-insensitive parse. -/
theorem C2_roundtrip :
    (∀ r : BcryptRecord,
      (r.ident = ['2'] ∨ r.ident = ['2', 'a']) → 4 ≤ r.rounds → r.rounds ≤ 31 →
      r.salt.length = 22 → r.salt.all isBcryptB64Char = true →
      (r.checksum = none ∨ ∃ c, r.checksum = some c ∧ c.length = 31 ∧
        c.all isBcryptB64Char = true) →
      bcrypt.from_string (bcrypt.to_string r) = .ok r) ∧
    (∀ (ident : List Char) (n : Nat) (salt chkb : List Nat),
      (ident = pbkdf2_sha1_ident ∨ ident = pbkdf2_sha256_ident ∨
        ident = pbkdf2_sha512_ident) →
      1 ≤ n → n ≤ 2 ^ 32 - 1 → salt.length ≤ 1024 → (∀ b ∈ salt, b < 256) →
      (∀ b ∈ chkb, b < 256) → chkb ≠ [] →
      Pbkdf2DigestHandler.from_string ident
        (Pbkdf2DigestHandler.to_string ident ⟨n, salt, some chkb⟩) =
        .ok ⟨n, salt, some chkb⟩ ∧
      Pbkdf2DigestHandler.from_string ident
        (Pbkdf2DigestHandler.to_string ident ⟨n, salt, none⟩) = .ok ⟨n, salt, none⟩) ∧
    (∀ (n : Nat) (salt chkb : List Nat),
      1 ≤ n → n ≤ 2 ^ 32 - 1 → salt.length ≤ 1024 → (∀ b ∈ salt, b < 256) →
      (∀ b ∈ chkb, b < 256) → chkb ≠ [] →
      grub_pbkdf2_sha512.from_string
        (grub_pbkdf2_sha512.to_string ⟨n, salt, some chkb⟩) =
        .ok ⟨n, salt, some chkb⟩ ∧
      grub_pbkdf2_sha512.from_string
        (grub_pbkdf2_sha512.to_string ⟨n, salt, none⟩) = .ok ⟨n, salt, none⟩) ∧
    (∀ salt chk : List Nat, salt.length = 4 → chk.length = 20 →
      (∀ b ∈ salt, b < 256) → (∀ b ∈ chk, b < 256) →
      mssql2005.from_string (mssql2005.to_string ⟨salt, some chk⟩) =
        .ok ⟨salt, some chk⟩) := by
  refine ⟨?_, ?_, ?_, ?_⟩
  · intro r hid hr4 hr31 hs hsa hchk
    exact bcrypt_from_string_to_string hid hr4 hr31 hs hsa hchk
  · intro ident n salt chkb hident hr1 hr2 hsl hsb hcb hcne
    have hne : ident ≠ [] := by
      rcases hident with rfl | rfl | rfl <;> decide
    exact ⟨pbkdf2_roundtrip_chk hne hr1 hr2 hsl hsb hcb hcne,
      pbkdf2_roundtrip_config hne hr1 hr2 hsl hsb⟩
  · intro n salt chkb hr1 hr2 hsl hsb hcb hcne
    exact ⟨grub_roundtrip_chk hr1 hr2 hsl hsb hcb hcne,
      grub_roundtrip_config hr1 hr2 hsl hsb⟩
  · intro salt chk hs hc hsb hcb
    exact mssql2005_roundtrip hs hc hsb hcb

set_option maxHeartbeats 2000000 in
/-- Witness for C2 at concrete records of every scheme. -/
theorem C2_witness :
    bcrypt.from_string (bcrypt.to_string
      ⟨['2', 'a'], 12, List.replicate 22 '.', some (List.replicate 31 '/')⟩) =
      .ok ⟨['2', 'a'], 12, List.replicate 22 '.', some (List.replicate 31 '/')⟩ ∧
    Pbkdf2DigestHandler.from_string pbkdf2_sha256_ident
      (Pbkdf2DigestHandler.to_string pbkdf2_sha256_ident
        ⟨6400, [1, 2, 3, 4], some (List.replicate 32 7)⟩) =
      .ok ⟨6400, [1, 2, 3, 4], some (List.replicate 32 7)⟩ ∧
    grub_pbkdf2_sha512.from_string (grub_pbkdf2_sha512.to_string
      ⟨10000, [171, 1], some [1, 2, 3]⟩) = .ok ⟨10000, [171, 1], some [1, 2, 3]⟩ ∧
    mssql2005.from_string (mssql2005.to_string
      ⟨[1, 2, 3, 4], some (List.replicate 20 5)⟩) =
      .ok ⟨[1, 2, 3, 4], some (List.replicate 20 5)⟩ := by
  have h1 := C2_roundtrip.1 ⟨['2', 'a'], 12, List.replicate 22 '.',
      some (List.replicate 31 '/')⟩ (Or.inr rfl) (by decide) (by decide) (by decide)
      (by decide) (Or.inr ⟨List.replicate 31 '/', rfl, by decide, by decide⟩)
  have h2 := (C2_roundtrip.2.1 pbkdf2_sha256_ident 6400 [1, 2, 3, 4]
      (List.replicate 32 7) (Or.inr (Or.inl rfl)) (by decide) (by decide) (by decide)
      (by decide) (by decide) (by decide)).1
  have h3 := (C2_roundtrip.2.2.1 10000 [171, 1] [1, 2, 3] (by decide) (by decide)
      (by decide) (by decide) (by decide) (by decide)).1
  have h4 := C2_roundtrip.2.2.2 [1, 2, 3, 4] (List.replicate 20 5) (by decide)
      (by decide) (by decide) (by decide)
  exact ⟨h1, h2, h3, h4⟩

/-- C5 (amended): `to_string` produces exactly
`$<ident>$<2-digit rounds>$<salt><checksum>`; `from_string` accepts the
strings of that shape with a rounds value in 4..31 and rejects those of
that shape whose rounds value lies outside 4..31; it also accepts the
checksum-less config shape `$<ident>$<2-digit rounds>$<salt>` (with
out-of-range rounds corrected rather than rejected there); and every
accepted string has one of those two shapes, with the record's rounds
equal to the two-digit value — within 4..31 in the checksum case,
clamped into it in the config case — so `from_string` fails on every
string outside those two accepted families. -/
theorem C5_bcrypt_format :
    (∀ (r : BcryptRecord) (c : List Char), r.checksum = some c →
      (r.ident = ['2'] ∨ r.ident = ['2', 'a']) → 4 ≤ r.rounds → r.rounds ≤ 31 →
      bcrypt.to_string r =
        '$' :: r.ident ++ '$' :: (bcrypt.pyFmt02d r.rounds ++ '$' :: (r.salt ++ c)) ∧
      (bcrypt.pyFmt02d r.rounds).length = 2 ∧
      (∀ ch ∈ bcrypt.pyFmt02d r.rounds, isAsciiDigit ch = true)) ∧
    (∀ (h ident : List Char) (d1 d2 : Char) (salt chk : List Char),
      bcryptStrictShape h ident d1 d2 salt chk →
      4 ≤ (d1.toNat - 48) * 10 + (d2.toNat - 48) →
      (d1.toNat - 48) * 10 + (d2.toNat - 48) ≤ 31 →
      bcrypt.from_string h =
        .ok ⟨ident, (d1.toNat - 48) * 10 + (d2.toNat - 48), salt, some chk⟩) ∧
    (∀ (h ident : List Char) (d1 d2 : Char) (salt chk : List Char),
      bcryptStrictShape h ident d1 d2 salt chk →
      ¬ (4 ≤ (d1.toNat - 48) * 10 + (d2.toNat - 48) ∧
        (d1.toNat - 48) * 10 + (d2.toNat - 48) ≤ 31) →
      bcrypt.from_string h = .error .invalidSetting) ∧
    (∀ (h ident : List Char) (d1 d2 : Char) (salt : List Char),
      bcryptConfigShape h ident d1 d2 salt →
      bcrypt.from_string h =
        .ok ⟨ident, bcrypt.clampRounds ((d1.toNat - 48) * 10 + (d2.toNat - 48)),
          salt, none⟩) ∧
    (∀ (h : List Char) (r : BcryptRecord), bcrypt.from_string h = .ok r →
      ∃ d1 d2,
        ((∃ c, r.checksum = some c ∧ bcryptStrictShape h r.ident d1 d2 r.salt c ∧
            r.rounds = (d1.toNat - 48) * 10 + (d2.toNat - 48) ∧ 4 ≤ r.rounds ∧
            r.rounds ≤ 31) ∨
          (r.checksum = none ∧ bcryptConfigShape h r.ident d1 d2 r.salt ∧
            r.rounds = bcrypt.clampRounds ((d1.toNat - 48) * 10 + (d2.toNat - 48))))) := by
  refine ⟨?_, ?_, ?_, ?_, ?_⟩
  · intro r c hchk hid hr4 hr31
    refine ⟨?_, ?_, ?_⟩
    · unfold bcrypt.to_string
      rw [hchk, show (some c).getD ([] : List Char) = c from rfl]
      simp [List.cons_append, List.append_assoc]
    · exact (pyFmt02d_spec r.rounds (by omega)).1
    · obtain ⟨d1, d2, hfmt, hd1, hd2, -⟩ := @pyFmt02d_pair r.rounds (by omega)
      rw [hfmt]
      intro ch hch
      rcases List.mem_cons.mp hch with rfl | hch
      · exact hd1
      · rcases List.mem_cons.mp hch with rfl | hch
        · exact hd2
        · simp at hch
  · intro h ident d1 d2 salt chk hshape hlo hhi
    obtain ⟨hid, hd1, hd2, hs, hsa, hcl, hca, hsh⟩ := hshape
    subst hsh
    exact bcrypt_from_string_complete_strict hid hd1 hd2 hlo hhi hs hsa hcl hca
  · intro h ident d1 d2 salt chk hshape hout
    obtain ⟨hid, hd1, hd2, hs, hsa, hcl, hca, hsh⟩ := hshape
    subst hsh
    exact bcrypt_from_string_reject_strict hid hd1 hd2 hout hs hsa hcl hca
  · intro h ident d1 d2 salt hshape
    obtain ⟨hid, hd1, hd2, hs, hsa, hsh⟩ := hshape
    subst hsh
    exact bcrypt_from_string_complete_config hid hd1 hd2 hs hsa
  · intro h r hok
    exact bcrypt_from_string_sound hok

/-- Counterexample to C5 as stated: `from_string` also accepts the
checksum-less 29-char config string `$2a$12$` + 22 salt chars instead of
failing on everything but the full 60/61-char checksum shape. -/
theorem C5_counterexample :
    bcrypt.from_string ('$' :: '2' :: 'a' :: '$' :: '1' :: '2' :: '$' ::
      List.replicate 22 '.') =
      .ok ⟨['2', 'a'], 12, List.replicate 22 '.', none⟩ ∧
    ('$' :: '2' :: 'a' :: '$' :: '1' :: '2' :: '$' ::
      List.replicate 22 '.' : List Char).length = 29 := by
  constructor
  · decide
  · decide

/-- Witness for C5 at a concrete record and concrete hash strings. -/
theorem C5_witness :
    bcrypt.to_string ⟨['2', 'a'], 7, List.replicate 22 '/', some (List.replicate 31 '.')⟩ =
      '$' :: ['2', 'a'] ++ '$' :: (bcrypt.pyFmt02d 7 ++ '$' ::
        (List.replicate 22 '/' ++ List.replicate 31 '.')) ∧
    bcrypt.from_string ('$' :: ['2'] ++ '$' :: '3' :: '0' :: '$' ::
      (List.replicate 22 'a' ++ List.replicate 31 'b')) =
      .ok ⟨['2'], ('3'.toNat - 48) * 10 + ('0'.toNat - 48), List.replicate 22 'a',
        some (List.replicate 31 'b')⟩ ∧
    bcrypt.from_string ('$' :: ['2'] ++ '$' :: '9' :: '9' :: '$' ::
      (List.replicate 22 'a' ++ List.replicate 31 'b')) = .error .invalidSetting ∧
    bcrypt.from_string ('$' :: ['2'] ++ '$' :: '9' :: '9' :: '$' :: List.replicate 22 'a') =
      .ok ⟨['2'], bcrypt.clampRounds (('9'.toNat - 48) * 10 + ('9'.toNat - 48)),
        List.replicate 22 'a', none⟩ ∧
    (∃ d1 d2,
      ((∃ c, (⟨['2', 'a'], 12, List.replicate 22 '.', none⟩ :
          BcryptRecord).checksum = some c ∧
          bcryptStrictShape ('$' :: '2' :: 'a' :: '$' :: '1' :: '2' :: '$' ::
            List.replicate 22 '.') ['2', 'a'] d1 d2 (List.replicate 22 '.') c ∧
          (12 : Nat) = (d1.toNat - 48) * 10 + (d2.toNat - 48) ∧ 4 ≤ (12 : Nat) ∧
          (12 : Nat) ≤ 31) ∨
        ((⟨['2', 'a'], 12, List.replicate 22 '.', none⟩ : BcryptRecord).checksum = none ∧
          bcryptConfigShape ('$' :: '2' :: 'a' :: '$' :: '1' :: '2' :: '$' ::
            List.replicate 22 '.') ['2', 'a'] d1 d2 (List.replicate 22 '.') ∧
          (12 : Nat) = bcrypt.clampRounds ((d1.toNat - 48) * 10 + (d2.toNat - 48))))) := by
  have h1 := (C5_bcrypt_format.1 ⟨['2', 'a'], 7, List.replicate 22 '/',
      some (List.replicate 31 '.')⟩ (List.replicate 31 '.') rfl (Or.inr rfl)
      (by decide) (by decide)).1
  have h2 := C5_bcrypt_format.2.1 ('$' :: ['2'] ++ '$' :: '3' :: '0' :: '$' ::
      (List.replicate 22 'a' ++ List.replicate 31 'b')) ['2'] '3' '0'
      (List.replicate 22 'a') (List.replicate 31 'b')
      ⟨Or.inl rfl, by decide, by decide, by decide, by decide, by decide, by decide, rfl⟩
      (by decide) (by decide)
  have hrej := C5_bcrypt_format.2.2.1 ('$' :: ['2'] ++ '$' :: '9' :: '9' :: '$' ::
      (List.replicate 22 'a' ++ List.replicate 31 'b')) ['2'] '9' '9'
      (List.replicate 22 'a') (List.replicate 31 'b')
      ⟨Or.inl rfl, by decide, by decide, by decide, by decide, by decide, by decide, rfl⟩
      (by decide)
  have h3 := C5_bcrypt_format.2.2.2.1 ('$' :: ['2'] ++ '$' :: '9' :: '9' :: '$' ::
      List.replicate 22 'a') ['2'] '9' '9' (List.replicate 22 'a')
      ⟨Or.inl rfl, by decide, by decide, by decide, by decide, rfl⟩
  have h4 := C5_bcrypt_format.2.2.2.2 ('$' :: '2' :: 'a' :: '$' :: '1' :: '2' :: '$' ::
      List.replicate 22 '.') ⟨['2', 'a'], 12, List.replicate 22 '.', none⟩ (by decide)
  exact ⟨h1, h2, hrej, h3, h4⟩

/-- C7 (amended): the pbkdf2_sha1/sha256/sha512 family and
grub_pbkdf2_sha512 reject any rounds field that is a non-canonical
decimal representation of its value (`rounds != str(int(rounds))`);
dlitz_pbkdf2_sha1 rejects only a leading zero in its hex rounds field —
other non-canonical hex spellings are accepted (see the counterexample). -/
theorem C7_noncanonical_rounds :
    (∀ (ident rf sf cf : List Char) (n : Nat),
      (ident = pbkdf2_sha1_ident ∨ ident = pbkdf2_sha256_ident ∨
        ident = pbkdf2_sha512_ident) →
      parseDec rf = some n → rf ≠ decRepr n →
      (∀ x ∈ sf, x ≠ '$') → (∀ x ∈ cf, x ≠ '$') →
      Pbkdf2DigestHandler.from_string ident
        (ident ++ (rf ++ '$' :: (sf ++ '$' :: cf))) = .error .malformedHash) ∧
    (∀ (rf sf cf : List Char) (n : Nat),
      parseDec rf = some n → rf ≠ decRepr n →
      (∀ x ∈ sf, x ≠ '.') → (∀ x ∈ cf, x ≠ '.') →
      grub_pbkdf2_sha512.from_string
        (grub_pbkdf2_sha512.ident ++ (rf ++ '.' :: (sf ++ '.' :: cf))) =
        .error .malformedHash) ∧
    (∀ rf sf cf : List Char, rf.head? = some '0' →
      (∀ x ∈ rf, x ≠ '$') → (∀ x ∈ sf, x ≠ '$') → (∀ x ∈ cf, x ≠ '$') →
      dlitz_pbkdf2_sha1.from_string
        (dlitz_pbkdf2_sha1.ident ++ (rf ++ '$' :: (sf ++ '$' :: cf))) =
        .error .malformedHash) := by
  refine ⟨?_, ?_, ?_⟩
  · intro ident rf sf cf n hident hpd hne hsf hcf
    have hemp : (ident ++ (rf ++ '$' :: (sf ++ '$' :: cf))).isEmpty = false := by
      rw [List.isEmpty_eq_false]
      intro hnil
      have h2 := (List.append_eq_nil.mp hnil).2
      have h3 := (List.append_eq_nil.mp h2).2
      exact absurd h3 (by simp)
    have hparse : parse_mc3 (ident ++ (rf ++ '$' :: (sf ++ '$' :: cf))) ident '$' =
        .ok (rf, sf, cf) :=
      parse_mc3_three (fun x hx => digit_ne_dollar (parseDec_digits hpd x hx)) hsf hcf
    unfold Pbkdf2DigestHandler.from_string
    simp only [hemp, Bool.false_eq_true, if_false, hparse, except_bind_ok, hpd]
    rw [if_pos hne]
  · intro rf sf cf n hpd hne hsf hcf
    have hemp : (grub_pbkdf2_sha512.ident ++
        (rf ++ '.' :: (sf ++ '.' :: cf))).isEmpty = false := by
      rw [List.isEmpty_eq_false]
      intro hnil
      exact absurd (List.append_eq_nil.mp hnil).1 (by decide)
    have hparse : parse_mc3 (grub_pbkdf2_sha512.ident ++ (rf ++ '.' :: (sf ++ '.' :: cf)))
        grub_pbkdf2_sha512.ident '.' = .ok (rf, sf, cf) :=
      parse_mc3_three (fun x hx => digit_ne_dot (parseDec_digits hpd x hx)) hsf hcf
    unfold grub_pbkdf2_sha512.from_string
    simp only [hemp, Bool.false_eq_true, if_false, hparse, except_bind_ok, hpd]
    rw [if_pos hne]
  · intro rf sf cf hhead hrf hsf hcf
    have hemp : (dlitz_pbkdf2_sha1.ident ++
        (rf ++ '$' :: (sf ++ '$' :: cf))).isEmpty = false := by
      rw [List.isEmpty_eq_false]
      intro hnil
      exact absurd (List.append_eq_nil.mp hnil).1 (by decide)
    have hparse : parse_mc3 (dlitz_pbkdf2_sha1.ident ++ (rf ++ '$' :: (sf ++ '$' :: cf)))
        dlitz_pbkdf2_sha1.ident '$' = .ok (rf, sf, cf) :=
      parse_mc3_three hrf hsf hcf
    unfold dlitz_pbkdf2_sha1.from_string
    simp only [hemp, Bool.false_eq_true, if_false, hparse, except_bind_ok]
    rw [if_pos hhead]

/-- Counterexample to C7 as stated: dlitz_pbkdf2_sha1 accepts the
upper-case hex rounds field `"A"` — a non-canonical representation of 10,
whose canonical printing (shown by `to_string`) is `"a"`. -/
theorem C7_counterexample :
    dlitz_pbkdf2_sha1.from_string
      "$p5k2$A$u9HvcT4d$Sd1gwSVCLZYAuqZ25piRnbBEoAesaa/g".data =
      .ok ⟨10, "u9HvcT4d".data, some "Sd1gwSVCLZYAuqZ25piRnbBEoAesaa/g".data⟩ ∧
    dlitz_pbkdf2_sha1.to_string
      ⟨10, "u9HvcT4d".data, some "Sd1gwSVCLZYAuqZ25piRnbBEoAesaa/g".data⟩ =
      "$p5k2$a$u9HvcT4d$Sd1gwSVCLZYAuqZ25piRnbBEoAesaa/g".data := by
  constructor
  · decide
  · decide

/-- Witness for C7 at concrete zero-padded rounds fields. -/
theorem C7_witness :
    Pbkdf2DigestHandler.from_string pbkdf2_sha1_ident
      (pbkdf2_sha1_ident ++ (['0', '1', '2'] ++ '$' :: ([] ++ '$' :: ['A']))) =
      .error .malformedHash ∧
    grub_pbkdf2_sha512.from_string
      (grub_pbkdf2_sha512.ident ++
        (['0', '0', '7'] ++ '.' :: (['A', 'B'] ++ '.' :: ['C', 'D']))) =
      .error .malformedHash ∧
    dlitz_pbkdf2_sha1.from_string
      (dlitz_pbkdf2_sha1.ident ++ (['0', 'c'] ++ '$' :: (['a', 'b'] ++ '$' :: ['c', 'd']))) =
      .error .malformedHash := by
  have h1 := C7_noncanonical_rounds.1 pbkdf2_sha1_ident ['0', '1', '2'] [] ['A'] 12
    (Or.inl rfl) (by decide) (by decide) (by decide) (by decide)
  have h2 := C7_noncanonical_rounds.2.1 ['0', '0', '7'] ['A', 'B'] ['C', 'D'] 7
    (by decide) (by decide) (by decide) (by decide)
  have h3 := C7_noncanonical_rounds.2.2 ['0', 'c'] ['a', 'b'] ['c', 'd']
    (by decide) (by decide) (by decide) (by decide)
  exact ⟨h1, h2, h3⟩

end Passlib
